import Mathlib

/-!
Shallow embedding of the KKR Credit ledger backend (controllers.js, models.js).

The Mongo document stores are modelled as association lists from numeric ids to
documents; `assocFind` is `findById` / `findOne({_id})` and `assocSet` is
`document.save()` for an already-existing document.  Monetary amounts are exact
rationals, timestamps are integers (the daily batch compares them only with
`<` / `≤`, so any linearly ordered time scale is faithful).  Randomly generated
values (referral codes, fresh document ids) are passed in as explicit arguments.
-/

namespace KKR

/-- `user.status` enum from models.js. -/
inductive UserStatus
  | active
  | blocked
  deriving DecidableEq, Repr

/-- `investment.status` enum from models.js. -/
inductive InvStatus
  | active
  | completed
  | cancelled
  deriving DecidableEq, Repr

/-- `withdrawal.status` enum from models.js. -/
inductive WStatus
  | pending
  | approved
  | rejected
  deriving DecidableEq, Repr

/-- User document (fields not touched by any verified operation are omitted). -/
structure User where
  phoneNumber : String
  balance : ℚ
  status : UserStatus
  visitorId : String
  referralCode : String
  invitedBy : Option String
  referredUsers : List Nat
  activeInvestments : List Nat
  withdrawalHistory : List Nat
  deriving DecidableEq, Repr

/-- InvestmentPlan document from models.js. -/
structure InvestmentPlan where
  name : String
  minAmount : ℚ
  maxAmount : ℚ
  dailyProfitRate : ℚ
  durationDays : Int
  isActive : Bool
  deriving DecidableEq, Repr

/-- Investment document from models.js.  `lastProfitCreditDate = none` models a
document where the field does not exist (`$exists: false` in the batch query). -/
structure Investment where
  userId : Nat
  planId : Nat
  investedAmount : ℚ
  dailyProfitRate : ℚ
  startDate : Int
  endDate : Int
  currentProfit : ℚ
  lastProfitCreditDate : Option Int
  status : InvStatus
  deriving DecidableEq, Repr

/-- Withdrawal document from models.js. -/
structure Withdrawal where
  userId : Nat
  amount : ℚ
  walletAddress : String
  status : WStatus
  deriving DecidableEq, Repr

/-- AdminConfig singleton document from models.js (commission and withdrawal
settings; deposit numbers/names are irrelevant to the verified operations). -/
structure AdminConfig where
  isPromotionActive : Bool
  commissionOnPlanActivation : ℚ
  commissionOnDailyProfit : ℚ
  withdrawalStartTime : String
  withdrawalEndTime : String
  minWithdrawalAmount : ℚ
  maxWithdrawalAmount : ℚ
  deriving DecidableEq, Repr

/-- The whole persistent store. -/
structure Ledger where
  users : List (Nat × User)
  plans : List (Nat × InvestmentPlan)
  investments : List (Nat × Investment)
  withdrawals : List (Nat × Withdrawal)
  config : Option AdminConfig
  deriving DecidableEq, Repr

/-- `Model.findById(k)`: first association for key `k`. -/
def assocFind {α : Type} : List (Nat × α) → Nat → Option α
  | [], _ => none
  | p :: t, k => if p.1 = k then some p.2 else assocFind t k

/-- `doc.save()` for an already-existing document: replace every association
for key `k` (with unique ids there is at most one). -/
def assocSet {α : Type} : List (Nat × α) → Nat → α → List (Nat × α)
  | [], _, _ => []
  | p :: t, k, v => (if p.1 = k then (k, v) else p) :: assocSet t k v

/-- JS truthiness of a nullable string (`null`, `undefined` and `""` are falsy). -/
def jsTruthyStr : Option String → Bool
  | none => false
  | some s => !s.isEmpty

/-- `User.findOne({ referralCode: code })`: first user document whose
`referralCode` matches. -/
def findByCode : List (Nat × User) → String → Option (Nat × User)
  | [], _ => none
  | p :: t, code => if p.2.referralCode = code then some p else findByCode t code

/-- `User.findOne({ referralCode: code })` on the whole store. -/
def findUserByReferralCode (l : Ledger) (code : String) : Option (Nat × User) :=
  findByCode l.users code

/-- Store well-formedness: document ids are unique within each collection
(Mongo `_id` uniqueness). -/
def WFLedger (l : Ledger) : Prop :=
  (l.users.map Prod.fst).Nodup ∧ (l.investments.map Prod.fst).Nodup ∧
    (l.withdrawals.map Prod.fst).Nodup

instance (l : Ledger) : Decidable (WFLedger l) := by
  unfold WFLedger; infer_instance

/- ### Association-list lemmas -/

theorem assocFind_set_self {α : Type} (xs : List (Nat × α)) (k : Nat) (v : α) :
    assocFind (assocSet xs k v) k = (assocFind xs k).map (fun _ => v) := by
  induction xs with
  | nil => rfl
  | cons p t ih =>
    by_cases h : p.1 = k
    · simp [assocSet, assocFind, h]
    · simp [assocSet, assocFind, h, ih]

theorem assocFind_set_ne {α : Type} (xs : List (Nat × α)) (k k' : Nat) (v : α)
    (h : k' ≠ k) : assocFind (assocSet xs k v) k' = assocFind xs k' := by
  induction xs with
  | nil => rfl
  | cons p t ih =>
    by_cases hp : p.1 = k
    · simp [assocSet, assocFind, hp, Ne.symm h, ih]
    · simp [assocSet, assocFind, hp, ih]

theorem assocSet_keys {α : Type} (xs : List (Nat × α)) (k : Nat) (v : α) :
    (assocSet xs k v).map Prod.fst = xs.map Prod.fst := by
  induction xs with
  | nil => rfl
  | cons p t ih =>
    by_cases hp : p.1 = k
    · simp [assocSet, hp, ih]
    · simp [assocSet, hp, ih]

theorem assocFind_append_none {α : Type} (xs ys : List (Nat × α)) (k : Nat)
    (h : assocFind xs k = none) : assocFind (xs ++ ys) k = assocFind ys k := by
  induction xs with
  | nil => rfl
  | cons p t ih =>
    by_cases hp : p.1 = k
    · simp [assocFind, hp] at h
    · simp only [assocFind, hp, if_false, List.cons_append, if_neg hp] at *
      exact ih h

theorem assocFind_append_some {α : Type} (xs ys : List (Nat × α)) (k : Nat) (v : α)
    (h : assocFind xs k = some v) : assocFind (xs ++ ys) k = some v := by
  induction xs with
  | nil => simp [assocFind] at h
  | cons p t ih =>
    by_cases hp : p.1 = k
    · simp only [assocFind, if_pos hp, List.cons_append] at *
      exact h
    · simp only [assocFind, if_neg hp, List.cons_append] at *
      exact ih h

theorem assocFind_mem {α : Type} {xs : List (Nat × α)} {k : Nat} {v : α}
    (h : assocFind xs k = some v) : (k, v) ∈ xs := by
  induction xs with
  | nil => simp [assocFind] at h
  | cons p t ih =>
    by_cases hp : p.1 = k
    · simp only [assocFind, if_pos hp, Option.some.injEq] at h
      exact List.mem_cons.mpr (Or.inl (by cases p; simp_all))
    · simp only [assocFind, if_neg hp] at h
      exact List.mem_cons_of_mem _ (ih h)

theorem assocFind_of_mem_nodup {α : Type} {xs : List (Nat × α)} {k : Nat} {v : α}
    (hnd : (xs.map Prod.fst).Nodup) (hm : (k, v) ∈ xs) : assocFind xs k = some v := by
  induction xs with
  | nil => simp at hm
  | cons p t ih =>
    simp only [List.map_cons, List.nodup_cons] at hnd
    rcases List.mem_cons.mp hm with h | h
    · subst h
      simp [assocFind]
    · have hne : p.1 ≠ k := by
        intro hk
        exact hnd.1 (hk ▸ (List.mem_map.mpr ⟨(k, v), h, rfl⟩))
      simp only [assocFind, if_neg hne]
      exact ih hnd.2 h

theorem assocFind_none_iff {α : Type} (xs : List (Nat × α)) (k : Nat) :
    assocFind xs k = none ↔ k ∉ xs.map Prod.fst := by
  induction xs with
  | nil => simp [assocFind]
  | cons p t ih =>
    by_cases hp : p.1 = k
    · simp [assocFind, hp]
    · simp [assocFind, hp, Ne.symm hp, ih]

/- ### Withdrawal time window (controllers.js, isWithdrawalTimeAllowed) -/

/-- `split(sep)` of JS, over the character list of the string (structurally
recursive so that it evaluates by kernel reduction; `""` splits to `[""]`
exactly as in JS). -/
def splitOnChar (sep : Char) : List Char → List (List Char)
  | [] => [[]]
  | c :: rest =>
    let r := splitOnChar sep rest
    if c = sep then [] :: r
    else
      match r with
      | [] => [[c]]
      | w :: ws => (c :: w) :: ws

/-- JS `Number(str)` restricted to the values this code can meet: the empty /
all-whitespace string is `0`, a decimal digit string is its value, anything
else is `NaN` (modelled as `none`). -/
def jsNumberChars (cs : List Char) : Option Nat :=
  let t := ((cs.dropWhile Char.isWhitespace).reverse.dropWhile Char.isWhitespace).reverse
  if t = [] then some 0
  else if t.all Char.isDigit then
    some (t.foldl (fun n c => n * 10 + (c.toNat - 48)) 0)
  else none

/-- `parseTime` from controllers.js: converts `"HH:MM"` to minutes since
midnight, `-1` when either component is `NaN`.  JS array destructuring takes
the first two components of `split(':')` and a missing second component is
`undefined`, hence `NaN`. -/
def parseTime (timeStr : String) : Int :=
  match (splitOnChar ':' timeStr.data).map jsNumberChars with
  | some h :: some m :: _ => (h : Int) * 60 + m
  | _ :: _ :: _ => -1
  | _ => -1

/-- `isWithdrawalTimeAllowed` from controllers.js, with the current local
clock time (minutes since midnight) passed explicitly. -/
def isWithdrawalTimeAllowed (currentTimeInMinutes : Int)
    (startTime endTime : String) : Bool :=
  let startTimeInMinutes := parseTime startTime
  let endTimeInMinutes := parseTime endTime
  if startTimeInMinutes = -1 ∨ endTimeInMinutes = -1 then
    true
  else
    decide (currentTimeInMinutes ≥ startTimeInMinutes) &&
      decide (currentTimeInMinutes ≤ endTimeInMinutes)

/- ### Withdrawal controllers -/

/-- Outcomes of `requestWithdrawal` (each non-success constructor is one of
the handler's early `return res.status(...)` exits). -/
inductive WithdrawResult
  | missingFields
  | nonPositive
  | userNotFound
  | outsideWindow
  | belowMin
  | aboveMax
  | insufficientBalance
  | success (wid : Nat)
  deriving DecidableEq, Repr

/-- `requestWithdrawal` from controllers.js.  `nowMinutes` is the local clock
time used by the window check; `newWid` is the id Mongo assigns to the created
withdrawal document. -/
def requestWithdrawal (l : Ledger) (userId : Nat) (amount : ℚ)
    (walletAddress : String) (nowMinutes : Int) (newWid : Nat) :
    WithdrawResult × Ledger :=
  if amount = 0 ∨ walletAddress = "" then (.missingFields, l)
  else if amount ≤ 0 then (.nonPositive, l)
  else
    match assocFind l.users userId with
    | none => (.userNotFound, l)
    | some user =>
      let timeOk : Bool :=
        match l.config with
        | some c =>
          if c.withdrawalStartTime ≠ "" ∧ c.withdrawalEndTime ≠ "" then
            isWithdrawalTimeAllowed nowMinutes c.withdrawalStartTime c.withdrawalEndTime
          else true
        | none => true
      if timeOk = false then (.outsideWindow, l)
      else
        let minWithdrawal : ℚ :=
          match l.config with
          | some c => c.minWithdrawalAmount
          | none => 1
        if amount < minWithdrawal then (.belowMin, l)
        else
          -- with no config the bound is `Infinity`, which no amount exceeds
          let overMax : Bool :=
            match l.config with
            | some c => decide (amount > c.maxWithdrawalAmount)
            | none => false
          if overMax then (.aboveMax, l)
          else if user.balance < amount then (.insufficientBalance, l)
          else
            let w : Withdrawal :=
              { userId := userId, amount := amount,
                walletAddress := walletAddress, status := .pending }
            let l1 := { l with withdrawals := l.withdrawals ++ [(newWid, w)] }
            let user' := { user with
              balance := user.balance - amount,
              withdrawalHistory := user.withdrawalHistory ++ [newWid] }
            (.success newWid, { l1 with users := assocSet l1.users userId user' })

/-- Outcomes of the admin approve/reject withdrawal handlers. -/
inductive AdminWResult
  | notFound
  | notPending
  | success
  deriving DecidableEq, Repr

/-- `approveWithdrawal` from controllers.js: flips a pending withdrawal to
`approved`; the user's balance is untouched (it was debited at request time). -/
def approveWithdrawal (l : Ledger) (wid : Nat) : AdminWResult × Ledger :=
  match assocFind l.withdrawals wid with
  | none => (.notFound, l)
  | some w =>
    if w.status ≠ WStatus.pending then (.notPending, l)
    else
      (.success,
        { l with withdrawals := assocSet l.withdrawals wid { w with status := .approved } })

/-- `rejectWithdrawal` from controllers.js: flips a pending withdrawal to
`rejected` and credits the amount back to the user's balance. -/
def rejectWithdrawal (l : Ledger) (wid : Nat) : AdminWResult × Ledger :=
  match assocFind l.withdrawals wid with
  | none => (.notFound, l)
  | some w =>
    if w.status ≠ WStatus.pending then (.notPending, l)
    else
      let l1 := { l with withdrawals := assocSet l.withdrawals wid { w with status := .rejected } }
      match assocFind l1.users w.userId with
      | some user =>
        (.success,
          { l1 with users := (assocSet l1.users w.userId
              { user with balance := user.balance + w.amount }) })
      | none => (.success, l1)

/- ### Registration (controllers.js, registerUser) -/

/-- The controller's `/^\d{9}$/` phone check. -/
def isValidPhone (s : String) : Bool :=
  s.length = 9 && s.toList.all Char.isDigit

/-- Outcomes of `registerUser`.  `deviceBlocked` is the HTTP 403 branch for a
duplicate `visitorId`. -/
inductive RegisterResult
  | missingFields
  | invalidPhone
  | deviceBlocked
  | phoneTaken
  | created
  deriving DecidableEq, Repr

/-- `registerUser` from controllers.js.  `freshCode` stands for the unique
referral code produced by the generate-and-retry loop; `newUserId` is the id
Mongo assigns to the created user document. -/
def registerUser (l : Ledger) (phoneNumber password visitorId : String)
    (inviteCode : Option String) (freshCode : String) (newUserId : Nat) :
    RegisterResult × Ledger :=
  if phoneNumber = "" ∨ password = "" ∨ visitorId = "" then (.missingFields, l)
  else if ¬ isValidPhone phoneNumber then (.invalidPhone, l)
  else if l.users.any (fun p => p.2.visitorId == visitorId) then
    -- block every still-active account bound to this visitorId, refuse with 403
    let users' := l.users.map (fun p =>
      if p.2.visitorId = visitorId ∧ p.2.status = UserStatus.active then
        (p.1, { p.2 with status := UserStatus.blocked })
      else p)
    (.deviceBlocked, { l with users := users' })
  else if l.users.any (fun p => p.2.phoneNumber == phoneNumber) then (.phoneTaken, l)
  else
    let invitingUser : Option (Nat × User) :=
      if jsTruthyStr inviteCode then
        match findByCode l.users (inviteCode.getD "") with
        | some (iid, iu) =>
          if iu.visitorId = visitorId then none else some (iid, iu)
        | none => none
      else none
    let newUser : User :=
      { phoneNumber := phoneNumber, balance := 0, status := .active,
        visitorId := visitorId, referralCode := freshCode,
        invitedBy := invitingUser.map (fun p => p.2.referralCode),
        referredUsers := [], activeInvestments := [], withdrawalHistory := [] }
    let l1 := { l with users := l.users ++ [(newUserId, newUser)] }
    match invitingUser with
    | some (iid, iu) =>
      (.created, { l1 with users := (assocSet l1.users iid
          { iu with referredUsers := iu.referredUsers ++ [newUserId] }) })
    | none => (.created, l1)

/- ### Investment activation and upgrade -/

/-- The activation/upgrade commission guard from controllers.js:
`user.invitedBy && adminConfig && adminConfig.isPromotionActive &&
adminConfig.commissionOnPlanActivation > 0` — note that the referrer's own
status is not part of this guard. -/
def activationCommissionGate (user : User) (cfg : Option AdminConfig) : Bool :=
  jsTruthyStr user.invitedBy &&
    (match cfg with
     | some c => c.isPromotionActive && decide (c.commissionOnPlanActivation > 0)
     | none => false)

/-- Outcomes of `activateInvestment`. -/
inductive ActivateResult
  | notFoundOrInactive
  | alreadyHasInvestment
  | invalidAmount
  | insufficientBalance
  | success (invId : Nat)
  deriving DecidableEq, Repr

/-- `activateInvestment` from controllers.js.  `now` is the current date (the
plan's duration is added to it for `endDate`; the Investment schema defaults
`startDate` and `lastProfitCreditDate` to `Date.now`); `newInvId` is the id of
the created investment document. -/
def activateInvestment (l : Ledger) (userId planId : Nat) (now : Int)
    (newInvId : Nat) : ActivateResult × Ledger :=
  match assocFind l.users userId, assocFind l.plans planId with
  | some user, some plan =>
    if plan.isActive = false then (.notFoundOrInactive, l)
    else if user.activeInvestments ≠ [] then (.alreadyHasInvestment, l)
    else
      let amount := plan.minAmount
      if amount ≤ 0 then (.invalidAmount, l)
      else if user.balance < amount then (.insufficientBalance, l)
      else
        let inv : Investment :=
          { userId := userId, planId := planId, investedAmount := amount,
            dailyProfitRate := plan.dailyProfitRate, startDate := now,
            endDate := now + plan.durationDays, currentProfit := 0,
            lastProfitCreditDate := some now, status := .active }
        let l1 := { l with investments := l.investments ++ [(newInvId, inv)] }
        let user' := { user with
          balance := user.balance - amount,
          activeInvestments := user.activeInvestments ++ [newInvId] }
        let l2 := { l1 with users := assocSet l1.users userId user' }
        -- activation commission, credited after the buyer was saved
        if activationCommissionGate user l.config then
          match user.invitedBy with
          | some code =>
            match findUserByReferralCode l2 code with
            | some (iid, inviter) =>
              let rate := (l.config.map AdminConfig.commissionOnPlanActivation).getD 0
              (.success newInvId,
                { l2 with users := (assocSet l2.users iid
                    { inviter with balance := inviter.balance + amount * rate }) })
            | none => (.success newInvId, l2)
          | none => (.success newInvId, l2)
        else (.success newInvId, l2)
  | _, _ => (.notFoundOrInactive, l)

/-- Outcomes of `upgradeInvestment`.  `serverErrorNoPlan` models the handler
throwing a `TypeError` (caught as HTTP 500) when it interpolates
`currentPlan.name` but the populated plan of the current investment is gone. -/
inductive UpgradeResult
  | notFoundOrInactive
  | noActiveInvestment
  | invalidActiveInvestment
  | priceNotHigher
  | insufficientBalance
  | serverErrorNoPlan
  | success
  deriving DecidableEq, Repr

/-- `upgradeInvestment` from controllers.js. -/
def upgradeInvestment (l : Ledger) (userId newPlanId : Nat) (now : Int) :
    UpgradeResult × Ledger :=
  match assocFind l.users userId, assocFind l.plans newPlanId with
  | some user, some newPlan =>
    if newPlan.isActive = false then (.notFoundOrInactive, l)
    else
      match user.activeInvestments with
      | [] => (.noActiveInvestment, l)
      | firstId :: _ =>
        match assocFind l.investments firstId with
        | none =>
          -- stale reference: scrub it from the user's list and fail
          let user' := { user with
            activeInvestments := user.activeInvestments.filter (fun j => j ≠ firstId) }
          (.invalidActiveInvestment, { l with users := assocSet l.users userId user' })
        | some inv =>
          let currentPlan := assocFind l.plans inv.planId
          let currentAmount := inv.investedAmount
          let newAmount := newPlan.minAmount
          if newAmount ≤ currentAmount then
            -- the 400 message dereferences `currentPlan.name`
            if currentPlan = none then (.serverErrorNoPlan, l) else (.priceNotHigher, l)
          else
            let priceDifference := newAmount - currentAmount
            if user.balance < priceDifference then (.insufficientBalance, l)
            else
              let inv' := { inv with
                planId := newPlanId, investedAmount := newAmount,
                dailyProfitRate := newPlan.dailyProfitRate,
                endDate := now + newPlan.durationDays,
                lastProfitCreditDate := some now }
              let user' := { user with balance := user.balance - priceDifference }
              let l1 := { l with investments := assocSet l.investments firstId inv' }
              let l2 := { l1 with users := assocSet l1.users userId user' }
              -- the success log line dereferences `currentPlan.name` after the saves
              if currentPlan = none then (.serverErrorNoPlan, l2)
              else if activationCommissionGate user l.config then
                match user.invitedBy with
                | some code =>
                  match findUserByReferralCode l2 code with
                  | some (iid, inviter) =>
                    let rate := (l.config.map AdminConfig.commissionOnPlanActivation).getD 0
                    (.success,
                      { l2 with users := (assocSet l2.users iid
                          { inviter with
                            balance := inviter.balance + priceDifference * rate }) })
                  | none => (.success, l2)
                | none => (.success, l2)
              else (.success, l2)
  | _, _ => (.notFoundOrInactive, l)

/- ### Daily batch (controllers.js, processDailyProfitsAndCommissions) -/

/-- The batch's selection gate: `status: 'active'` and
`lastProfitCreditDate < today` or the field does not exist. -/
def gate (today : Int) (inv : Investment) : Bool :=
  inv.status = InvStatus.active &&
    (match inv.lastProfitCreditDate with
     | some d => decide (d < today)
     | none => true)

/-- Ids of the investments returned by the batch's initial `Investment.find`. -/
def selectedIds (l : Ledger) (today : Int) : List Nat :=
  (l.investments.filter (fun p => gate today p.2)).map Prod.fst

/-- One iteration of the batch loop, for the investment with id `invId`.
Reads go to the current store state (mongoose hands the loop the query-time
documents, and no other iteration writes this investment, so a fresh read is
equivalent); writes are persisted in the source's order: referrer commission,
then the investment, then the owning user — so a self-referring owner's final
save overwrites the commission, exactly as the handler's `save()` sequence
does. -/
def accrueStep (l : Ledger) (today : Int) (invId : Nat) : Ledger :=
  match assocFind l.investments invId with
  | none => l
  | some inv =>
    match assocFind l.users inv.userId with
    | none =>
      -- missing owner: no accrual, but a matured investment is still completed
      if inv.endDate ≤ today then
        { l with investments := assocSet l.investments invId { inv with status := .completed } }
      else l
    | some user =>
      if user.status = UserStatus.blocked then
        if inv.endDate ≤ today then
          { l with investments := assocSet l.investments invId { inv with status := .completed } }
        else l
      else if inv.endDate ≤ today then
        -- maturity: complete the investment and detach it from the owner
        let l1 := { l with investments := assocSet l.investments invId { inv with status := .completed } }
        { l1 with users := (assocSet l1.users inv.userId
            { user with activeInvestments := user.activeInvestments.filter (fun j => j ≠ invId) }) }
      else
        -- accrue the daily profit, then the daily-profit commission
        let dailyProfit := inv.investedAmount * inv.dailyProfitRate
        let isPromo : Bool :=
          match l.config with
          | some c => c.isPromotionActive
          | none => false
        let commissionRate : ℚ :=
          match l.config with
          | some c => c.commissionOnDailyProfit
          | none => 0
        let l1 :=
          if isPromo ∧ commissionRate > 0 ∧ jsTruthyStr user.invitedBy then
            match user.invitedBy with
            | some code =>
              match findUserByReferralCode l code with
              | some (iid, inviter) =>
                if inviter.status = UserStatus.active then
                  { l with users := (assocSet l.users iid
                      { inviter with balance := inviter.balance + dailyProfit * commissionRate }) }
                else l
              | none => l
            | none => l
          else l
        let l2 := { l1 with investments := (assocSet l1.investments invId
            { inv with currentProfit := inv.currentProfit + dailyProfit,
                       lastProfitCreditDate := some today }) }
        { l2 with users := (assocSet l2.users inv.userId
            { user with balance := user.balance + dailyProfit }) }

/-- `processDailyProfitsAndCommissions` from controllers.js: select the
not-yet-credited active investments, then run the loop body over them. -/
def processDailyProfitsAndCommissions (l : Ledger) (today : Int) : Ledger :=
  (selectedIds l today).foldl (fun acc i => accrueStep acc today i) l

/- ### Batch step lemmas -/

/-- Status of a user id in the store (used to track that the batch never
creates, deletes, blocks or unblocks a user). -/
def statusOf (l : Ledger) (uid : Nat) : Option UserStatus :=
  (assocFind l.users uid).map User.status

theorem accrueStep_investments_ne (l : Ledger) (today : Int) (i j : Nat)
    (hji : j ≠ i) :
    assocFind (accrueStep l today i).investments j = assocFind l.investments j := by
  unfold accrueStep
  cases hinv : assocFind l.investments i with
  | none => rfl
  | some inv =>
    cases huser : assocFind l.users inv.userId with
    | none =>
      by_cases hend : inv.endDate ≤ today <;>
        simp [huser, hend, assocFind_set_ne _ _ _ _ hji]
    | some user =>
      by_cases hb : user.status = UserStatus.blocked
      · by_cases hend : inv.endDate ≤ today <;>
          simp [huser, hb, hend, assocFind_set_ne _ _ _ _ hji]
      · by_cases hend : inv.endDate ≤ today
        · simp [huser, hb, hend, assocFind_set_ne _ _ _ _ hji]
        · simp only [huser, hb, hend, if_false, ite_false, if_neg, not_false_iff]
          split
          · split
            · split
              · split <;> simp [assocFind_set_ne _ _ _ _ hji]
              · simp [assocFind_set_ne _ _ _ _ hji]
            · simp [assocFind_set_ne _ _ _ _ hji]
          · simp [assocFind_set_ne _ _ _ _ hji]

theorem accrueStep_users_keys (l : Ledger) (today : Int) (i : Nat) :
    (accrueStep l today i).users.map Prod.fst = l.users.map Prod.fst := by
  unfold accrueStep
  cases hinv : assocFind l.investments i with
  | none => rfl
  | some inv =>
    cases huser : assocFind l.users inv.userId with
    | none =>
      by_cases hend : inv.endDate ≤ today <;> simp [huser, hend]
    | some user =>
      by_cases hb : user.status = UserStatus.blocked
      · by_cases hend : inv.endDate ≤ today <;> simp [huser, hb, hend]
      · by_cases hend : inv.endDate ≤ today
        · simp [huser, hb, hend, assocSet_keys]
        · simp only [huser, hb, hend, if_false, ite_false, if_neg, not_false_iff]
          split
          · split
            · split
              · split <;> simp [assocSet_keys]
              · simp [assocSet_keys]
            · simp [assocSet_keys]
          · simp [assocSet_keys]

theorem accrueStep_investments_keys (l : Ledger) (today : Int) (i : Nat) :
    (accrueStep l today i).investments.map Prod.fst = l.investments.map Prod.fst := by
  unfold accrueStep
  cases hinv : assocFind l.investments i with
  | none => rfl
  | some inv =>
    cases huser : assocFind l.users inv.userId with
    | none =>
      by_cases hend : inv.endDate ≤ today <;> simp [huser, hend, assocSet_keys]
    | some user =>
      by_cases hb : user.status = UserStatus.blocked
      · by_cases hend : inv.endDate ≤ today <;> simp [huser, hb, hend, assocSet_keys]
      · by_cases hend : inv.endDate ≤ today
        · simp [huser, hb, hend, assocSet_keys]
        · simp only [huser, hb, hend, if_false, ite_false, if_neg, not_false_iff]
          split
          · split
            · split
              · split <;> simp [assocSet_keys]
              · simp [assocSet_keys]
            · simp [assocSet_keys]
          · simp [assocSet_keys]

/-- The batch loop over an explicit list of investment ids. -/
def runIds (l : Ledger) (today : Int) (ids : List Nat) : Ledger :=
  ids.foldl (fun acc i => accrueStep acc today i) l

theorem processDaily_def (l : Ledger) (today : Int) :
    processDailyProfitsAndCommissions l today = runIds l today (selectedIds l today) := rfl

theorem runIds_cons (l : Ledger) (today : Int) (i : Nat) (ids : List Nat) :
    runIds l today (i :: ids) = runIds (accrueStep l today i) today ids := rfl

theorem runIds_append (l : Ledger) (today : Int) (xs ys : List Nat) :
    runIds l today (xs ++ ys) = runIds (runIds l today xs) today ys := by
  simp [runIds, List.foldl_append]

theorem runIds_investments_ne (l : Ledger) (today : Int) (i : Nat) (ids : List Nat)
    (hids : i ∉ ids) :
    assocFind (runIds l today ids).investments i = assocFind l.investments i := by
  induction ids generalizing l with
  | nil => rfl
  | cons j t ih =>
    have hj : i ≠ j := fun h => hids (h ▸ List.mem_cons_self j t)
    have ht : i ∉ t := fun h => hids (List.mem_cons_of_mem _ h)
    rw [runIds_cons, ih _ ht, accrueStep_investments_ne _ _ _ _ hj]

theorem runIds_users_keys (l : Ledger) (today : Int) (ids : List Nat) :
    (runIds l today ids).users.map Prod.fst = l.users.map Prod.fst := by
  induction ids generalizing l with
  | nil => rfl
  | cons j t ih =>
    rw [runIds_cons, ih, accrueStep_users_keys]

theorem runIds_investments_keys (l : Ledger) (today : Int) (ids : List Nat) :
    (runIds l today ids).investments.map Prod.fst = l.investments.map Prod.fst := by
  induction ids generalizing l with
  | nil => rfl
  | cons j t ih =>
    rw [runIds_cons, ih, accrueStep_investments_keys]

theorem runIds_fix (l : Ledger) (today : Int) (ids : List Nat)
    (h : ∀ j ∈ ids, accrueStep l today j = l) : runIds l today ids = l := by
  induction ids with
  | nil => rfl
  | cons j t ih =>
    rw [runIds_cons, h j (List.mem_cons_self j t)]
    exact ih (fun k hk => h k (List.mem_cons_of_mem _ hk))

/-- A `findOne` hit is a member of the collection. -/
theorem findByCode_mem {xs : List (Nat × User)} {code : String} {i : Nat} {u : User}
    (h : findByCode xs code = some (i, u)) : (i, u) ∈ xs := by
  induction xs with
  | nil => simp [findByCode] at h
  | cons p t ih =>
    by_cases hp : p.2.referralCode = code
    · simp only [findByCode, if_pos hp, Option.some.injEq] at h
      exact List.mem_cons.mpr (Or.inl h.symm)
    · simp only [findByCode, if_neg hp] at h
      exact List.mem_cons_of_mem _ (ih h)

/-- Replacing a stored user with one of equal status does not change any
user's status-by-id view. -/
theorem statusMap_set (xs : List (Nat × User)) (k : Nat) (v : User)
    (h : ∀ u, assocFind xs k = some u → v.status = u.status) (uid : Nat) :
    (assocFind (assocSet xs k v) uid).map User.status
      = (assocFind xs uid).map User.status := by
  by_cases huid : uid = k
  · subst huid
    rw [assocFind_set_self]
    cases hx : assocFind xs uid with
    | none => simp
    | some u => simp [h u hx]
  · rw [assocFind_set_ne _ _ _ _ huid]

theorem accrueStep_statusOf (l : Ledger) (today : Int) (i uid : Nat)
    (hndU : (l.users.map Prod.fst).Nodup) :
    statusOf (accrueStep l today i) uid = statusOf l uid := by
  unfold accrueStep
  cases hinv : assocFind l.investments i with
  | none => rfl
  | some inv =>
    cases huser : assocFind l.users inv.userId with
    | none =>
      by_cases hend : inv.endDate ≤ today <;> simp [statusOf, huser, hend]
    | some user =>
      by_cases hb : user.status = UserStatus.blocked
      · by_cases hend : inv.endDate ≤ today <;> simp [statusOf, huser, hb, hend]
      · by_cases hend : inv.endDate ≤ today
        · simp only [huser, hb, hend, if_true, ite_true, if_neg, not_false_iff]
          unfold statusOf
          exact statusMap_set _ _ _ (fun u hu => by rw [huser] at hu; cases hu; rfl) uid
        · simp only [huser, hb, hend, if_false, ite_false, if_neg, not_false_iff]
          split
          · split
            · split
              · rename_i iid inviter hcodeFind
                split
                · rename_i hact
                  unfold statusOf
                  have hfi : assocFind l.users iid = some inviter :=
                    assocFind_of_mem_nodup hndU (findByCode_mem hcodeFind)
                  have h1 : ∀ uid', (assocFind (assocSet l.users iid
                      { inviter with balance := inviter.balance +
                          inv.investedAmount * inv.dailyProfitRate *
                            (match l.config with
                             | some c => c.commissionOnDailyProfit
                             | none => 0) }) uid').map User.status
                        = (assocFind l.users uid').map User.status :=
                    statusMap_set _ _ _ (fun u hu => by rw [hfi] at hu; cases hu; rfl)
                  rw [statusMap_set _ _ _ ?hw uid]
                  · exact h1 uid
                  case hw =>
                    intro w hw
                    have h2 := h1 inv.userId
                    rw [hw, huser] at h2
                    simpa using h2.symm
                · unfold statusOf
                  exact statusMap_set _ _ _ (fun u hu => by rw [huser] at hu; cases hu; rfl) uid
              · unfold statusOf
                exact statusMap_set _ _ _ (fun u hu => by rw [huser] at hu; cases hu; rfl) uid
            · unfold statusOf
              exact statusMap_set _ _ _ (fun u hu => by rw [huser] at hu; cases hu; rfl) uid
          · unfold statusOf
            exact statusMap_set _ _ _ (fun u hu => by rw [huser] at hu; cases hu; rfl) uid

theorem runIds_statusOf (l : Ledger) (today : Int) (ids : List Nat) (uid : Nat)
    (hndU : (l.users.map Prod.fst).Nodup) :
    statusOf (runIds l today ids) uid = statusOf l uid := by
  induction ids generalizing l with
  | nil => rfl
  | cons j t ih =>
    rw [runIds_cons,
      ih _ (by rw [accrueStep_users_keys]; exact hndU),
      accrueStep_statusOf _ _ _ _ hndU]

theorem mem_selectedIds_iff (l : Ledger) (today : Int) (i : Nat)
    (hndI : (l.investments.map Prod.fst).Nodup) :
    i ∈ selectedIds l today
      ↔ ∃ inv, assocFind l.investments i = some inv ∧ gate today inv = true := by
  constructor
  · intro h
    obtain ⟨p, hp, hfst⟩ := List.mem_map.mp h
    obtain ⟨hmem, hgate⟩ := List.mem_filter.mp hp
    refine ⟨p.2, ?_, hgate⟩
    rw [← hfst]
    exact assocFind_of_mem_nodup hndI hmem
  · rintro ⟨inv, hfind, hgate⟩
    exact List.mem_map.mpr
      ⟨(i, inv), List.mem_filter.mpr ⟨assocFind_mem hfind, hgate⟩, rfl⟩

theorem selectedIds_nodup (l : Ledger) (today : Int)
    (hndI : (l.investments.map Prod.fst).Nodup) : (selectedIds l today).Nodup :=
  hndI.sublist ((List.filter_sublist _).map Prod.fst)

theorem nodup_split {i : Nat} {ids : List Nat} (h : i ∈ ids) (hnd : ids.Nodup) :
    ∃ pre post, ids = pre ++ i :: post ∧ i ∉ pre ∧ i ∉ post := by
  obtain ⟨pre, post, rfl⟩ := List.append_of_mem h
  rw [List.nodup_append] at hnd
  refine ⟨pre, post, rfl, ?_, ?_⟩
  · intro hipre
    exact hnd.2.2 hipre (List.mem_cons_self i post)
  · intro hipost
    exact (List.nodup_cons.mp hnd.2.1).1 hipost

/-- Processing an investment whose owner is missing or blocked and which has
not yet matured is a no-op of the loop body. -/
theorem accrueStep_skip (l : Ledger) (today : Int) (i : Nat) (inv : Investment)
    (hfind : assocFind l.investments i = some inv)
    (hskip : statusOf l inv.userId = none ∨ statusOf l inv.userId = some UserStatus.blocked)
    (hend : today < inv.endDate) :
    accrueStep l today i = l := by
  unfold accrueStep
  have hend' : ¬ inv.endDate ≤ today := by omega
  cases huser : assocFind l.users inv.userId with
  | none => simp [hfind, huser, hend']
  | some user =>
    have hb : user.status = UserStatus.blocked := by
      rcases hskip with h | h <;> rw [statusOf, huser] at h
      · cases h
      · simpa using h
    simp [hfind, huser, hb, hend']

/-- After the loop body runs on a selected investment, either the investment
no longer passes the selection gate, or nothing happened because its owner is
missing or blocked and it has not matured. -/
theorem accrueStep_self_dichotomy (l : Ledger) (today : Int) (i : Nat)
    (inv : Investment)
    (hfind : assocFind l.investments i = some inv)
    (_hgate : gate today inv = true) :
    (∃ inv', assocFind (accrueStep l today i).investments i = some inv'
        ∧ gate today inv' = false)
    ∨ (accrueStep l today i = l
        ∧ (statusOf l inv.userId = none ∨ statusOf l inv.userId = some UserStatus.blocked)
        ∧ today < inv.endDate) := by
  cases huser : assocFind l.users inv.userId with
  | none =>
    by_cases hend : inv.endDate ≤ today
    · left
      refine ⟨{ inv with status := .completed }, ?_, by simp [gate]⟩
      unfold accrueStep
      simp [hfind, huser, hend, assocFind_set_self]
    · right
      refine ⟨?_, Or.inl (by rw [statusOf, huser]; rfl), by omega⟩
      unfold accrueStep
      simp [hfind, huser, hend]
  | some user =>
    by_cases hb : user.status = UserStatus.blocked
    · by_cases hend : inv.endDate ≤ today
      · left
        refine ⟨{ inv with status := .completed }, ?_, by simp [gate]⟩
        unfold accrueStep
        simp [hfind, huser, hb, hend, assocFind_set_self]
      · right
        refine ⟨?_, Or.inr (by rw [statusOf, huser]; simp [hb]), by omega⟩
        unfold accrueStep
        simp [hfind, huser, hb, hend]
    · by_cases hend : inv.endDate ≤ today
      · left
        refine ⟨{ inv with status := .completed }, ?_, by simp [gate]⟩
        unfold accrueStep
        simp [hfind, huser, hb, hend, assocFind_set_self]
      · left
        refine ⟨{ inv with
            currentProfit := inv.currentProfit + inv.investedAmount * inv.dailyProfitRate,
            lastProfitCreditDate := some today }, ?_, by simp [gate]⟩
        unfold accrueStep
        simp only [hfind, huser, hb, hend, if_false, ite_false, if_neg, not_false_iff]
        split
        · split
          · split
            · split
              · simp [hfind, assocFind_set_self]
              · simp [hfind, assocFind_set_self]
            · simp [hfind, assocFind_set_self]
          · simp [hfind, assocFind_set_self]
        · simp [hfind, assocFind_set_self]

/-- After one batch run, every investment the selection gate would still admit
is one the loop body no longer touches. -/
theorem selected_after_run_fixed (l : Ledger) (today : Int)
    (hndU : (l.users.map Prod.fst).Nodup)
    (hndI : (l.investments.map Prod.fst).Nodup) :
    ∀ i ∈ selectedIds (processDailyProfitsAndCommissions l today) today,
      accrueStep (processDailyProfitsAndCommissions l today) today i
        = processDailyProfitsAndCommissions l today := by
  intro i hi
  set l1 := processDailyProfitsAndCommissions l today with hl1
  have hI1 : (l1.investments.map Prod.fst).Nodup := by
    rw [hl1, processDaily_def, runIds_investments_keys]; exact hndI
  obtain ⟨inv1, hfind1, hgate1⟩ := (mem_selectedIds_iff l1 today i hI1).mp hi
  have hisel : i ∈ selectedIds l today := by
    by_contra hnot
    have heq : assocFind l1.investments i = assocFind l.investments i := by
      rw [hl1, processDaily_def]
      exact runIds_investments_ne _ _ _ _ hnot
    rw [heq] at hfind1
    exact hnot ((mem_selectedIds_iff l today i hndI).mpr ⟨inv1, hfind1, hgate1⟩)
  obtain ⟨inv0, hfind0, hgate0⟩ := (mem_selectedIds_iff l today i hndI).mp hisel
  obtain ⟨pre, post, hids, hipre, hipost⟩ :=
    nodup_split hisel (selectedIds_nodup l today hndI)
  have hU0 : ((runIds l today pre).users.map Prod.fst).Nodup := by
    rw [runIds_users_keys]; exact hndU
  have hfindpre : assocFind (runIds l today pre).investments i = some inv0 := by
    rw [runIds_investments_ne _ _ _ _ hipre]; exact hfind0
  have hrun : l1 = runIds (accrueStep (runIds l today pre) today i) today post := by
    rw [hl1, processDaily_def, hids, runIds_append, runIds_cons]
  rcases accrueStep_self_dichotomy (runIds l today pre) today i inv0 hfindpre hgate0
    with ⟨inv', hfind', hgatef⟩ | ⟨hstep, hskip0, hend0⟩
  · exfalso
    have : assocFind l1.investments i = some inv' := by
      rw [hrun, runIds_investments_ne _ _ _ _ hipost]
      exact hfind'
    rw [hfind1] at this
    cases this
    rw [hgate1] at hgatef
    cases hgatef
  · rw [hstep] at hrun
    have hfindl1 : assocFind l1.investments i = some inv0 := by
      rw [hrun, runIds_investments_ne _ _ _ _ hipost]
      exact hfindpre
    have hst : statusOf l1 inv0.userId = statusOf (runIds l today pre) inv0.userId := by
      rw [hrun]
      exact runIds_statusOf _ _ _ _ hU0
    exact accrueStep_skip l1 today i inv0 hfindl1 (by rw [hst]; exact hskip0) hend0

/-- A user write preserves any property of `activeInvestments` that survives
the written value. -/
theorem listRel_set (xs : List (Nat × User)) (k : Nat) (v : User) (uid : Nat)
    (P : List Nat → Prop)
    (hv : ∀ u, assocFind xs k = some u → P u.activeInvestments → P v.activeInvestments)
    (h : ∃ u, assocFind xs uid = some u ∧ P u.activeInvestments) :
    ∃ u, assocFind (assocSet xs k v) uid = some u ∧ P u.activeInvestments := by
  obtain ⟨u, hu, hP⟩ := h
  by_cases huid : uid = k
  · subst huid
    rw [assocFind_set_self, hu]
    exact ⟨v, rfl, hv u hu hP⟩
  · rw [assocFind_set_ne _ _ _ _ huid]
    exact ⟨u, hu, hP⟩

/-- Every user write the loop body performs keeps the written user's
`activeInvestments` either unchanged or filtered by the processed id; hence
any list property stable under that filter survives the whole body. -/
theorem accrueStep_userList (l : Ledger) (today : Int) (j uid : Nat)
    (P : List Nat → Prop)
    (hndU : (l.users.map Prod.fst).Nodup)
    (hP : ∀ xs, P xs → P (xs.filter (fun x => x ≠ j)))
    (h : ∃ u, assocFind l.users uid = some u ∧ P u.activeInvestments) :
    ∃ u, assocFind (accrueStep l today j).users uid = some u ∧ P u.activeInvestments := by
  unfold accrueStep
  cases hinv : assocFind l.investments j with
  | none => exact h
  | some inv =>
    cases huser : assocFind l.users inv.userId with
    | none =>
      by_cases hend : inv.endDate ≤ today <;> simpa [huser, hend] using h
    | some user =>
      by_cases hb : user.status = UserStatus.blocked
      · by_cases hend : inv.endDate ≤ today <;> simpa [huser, hb, hend] using h
      · by_cases hend : inv.endDate ≤ today
        · simp only [huser, hb, hend, if_true, ite_true, if_neg, not_false_iff]
          exact listRel_set _ _ _ _ P
            (fun u hu hPu => by rw [huser] at hu; cases hu; exact hP _ hPu) h
        · simp only [huser, hb, hend, if_false, ite_false, if_neg, not_false_iff]
          split
          · split
            · split
              · rename_i iid inviter hcodeFind
                split
                · rename_i hact
                  have hfi : assocFind l.users iid = some inviter :=
                    assocFind_of_mem_nodup hndU (findByCode_mem hcodeFind)
                  have hinner := listRel_set l.users iid
                    { inviter with balance := inviter.balance +
                        inv.investedAmount * inv.dailyProfitRate *
                          (match l.config with
                           | some c => c.commissionOnDailyProfit
                           | none => 0) } uid P
                    (fun u hu hPu => by rw [hfi] at hu; cases hu; exact hPu) h
                  refine listRel_set _ _ _ _ P ?_ hinner
                  intro u hu hPu
                  by_cases hk : inv.userId = iid
                  · rw [hk, assocFind_set_self, hfi] at hu
                    cases hu
                    rw [hk] at huser
                    rw [hfi] at huser
                    cases huser
                    exact hPu
                  · rw [assocFind_set_ne _ _ _ _ hk, huser] at hu
                    cases hu
                    exact hPu
                · exact listRel_set _ _ _ _ P
                    (fun u hu hPu => by rw [huser] at hu; cases hu; exact hPu) h
              · exact listRel_set _ _ _ _ P
                  (fun u hu hPu => by rw [huser] at hu; cases hu; exact hPu) h
            · exact listRel_set _ _ _ _ P
                (fun u hu hPu => by rw [huser] at hu; cases hu; exact hPu) h
          · exact listRel_set _ _ _ _ P
              (fun u hu hPu => by rw [huser] at hu; cases hu; exact hPu) h

theorem runIds_userList (l : Ledger) (today : Int) (ids : List Nat) (uid : Nat)
    (P : List Nat → Prop)
    (hndU : (l.users.map Prod.fst).Nodup)
    (hP : ∀ j ∈ ids, ∀ xs, P xs → P (xs.filter (fun x => x ≠ j)))
    (h : ∃ u, assocFind l.users uid = some u ∧ P u.activeInvestments) :
    ∃ u, assocFind (runIds l today ids).users uid = some u ∧ P u.activeInvestments := by
  induction ids generalizing l with
  | nil => exact h
  | cons j t ih =>
    rw [runIds_cons]
    exact ih _ (by rw [accrueStep_users_keys]; exact hndU)
      (fun k hk => hP k (List.mem_cons_of_mem _ hk))
      (accrueStep_userList l today j uid P hndU (hP j (List.mem_cons_self j t)) h)

/-- A completed investment is invisible to the batch: it is not selected and
no loop iteration writes it. -/
theorem completed_stays (m : Ledger) (d : Int) (j : Nat) (inv₂ : Investment)
    (hndI : (m.investments.map Prod.fst).Nodup)
    (hfind : assocFind m.investments j = some inv₂)
    (hc : inv₂.status ≠ InvStatus.active) :
    assocFind (processDailyProfitsAndCommissions m d).investments j = some inv₂ := by
  rw [processDaily_def]
  rw [runIds_investments_ne]
  · exact hfind
  · intro hj
    obtain ⟨inv', hfind', hgate'⟩ := (mem_selectedIds_iff m d j hndI).mp hj
    rw [hfind] at hfind'
    cases hfind'
    rw [gate] at hgate'
    simp at hgate'
    exact hc hgate'.1

/-- C2: the daily batch is idempotent within a day — re-running
`processDailyProfitsAndCommissions` with the same `today` boundary returns the
store unchanged (in particular no user balance and no investment's
`currentProfit` changes), because every accrued investment had
`lastProfitCreditDate` set to `today` and the selection gate only admits
investments with `lastProfitCreditDate` strictly before `today` or unset. -/
theorem processDaily_idempotent (l : Ledger) (today : Int)
    (hndU : (l.users.map Prod.fst).Nodup)
    (hndI : (l.investments.map Prod.fst).Nodup) :
    processDailyProfitsAndCommissions (processDailyProfitsAndCommissions l today) today
      = processDailyProfitsAndCommissions l today := by
  rw [processDaily_def (processDailyProfitsAndCommissions l today)]
  exact runIds_fix _ _ _ (selected_after_run_fixed l today hndU hndI)

/-- Loop body on a matured investment with a present, non-blocked owner:
complete the investment and detach it from the owner's active list. -/
theorem accrueStep_maturity_active (l : Ledger) (today : Int) (i : Nat)
    (inv : Investment) (user : User)
    (hfind : assocFind l.investments i = some inv)
    (huser : assocFind l.users inv.userId = some user)
    (hnb : user.status ≠ UserStatus.blocked)
    (hend : inv.endDate ≤ today) :
    accrueStep l today i = { l with
      investments := assocSet l.investments i { inv with status := .completed },
      users := assocSet l.users inv.userId
        { user with activeInvestments := user.activeInvestments.filter (fun j => j ≠ i) } } := by
  unfold accrueStep
  simp [hfind, huser, hnb, hend]

/-- Loop body on an investment whose owner is missing or blocked never
touches the users collection. -/
theorem accrueStep_skipOwner_users (l : Ledger) (today : Int) (i : Nat)
    (inv : Investment)
    (hfind : assocFind l.investments i = some inv)
    (hskip : statusOf l inv.userId = none
      ∨ statusOf l inv.userId = some UserStatus.blocked) :
    (accrueStep l today i).users = l.users := by
  unfold accrueStep
  cases huser : assocFind l.users inv.userId with
  | none => by_cases hend : inv.endDate ≤ today <;> simp [hfind, huser, hend]
  | some user =>
    have hb : user.status = UserStatus.blocked := by
      rcases hskip with h | h <;> rw [statusOf, huser] at h
      · cases h
      · simpa using h
    by_cases hend : inv.endDate ≤ today <;> simp [hfind, huser, hb, hend]

/-- Loop body on a matured investment with a missing or blocked owner:
complete the investment, touch nothing else. -/
theorem accrueStep_skipOwner_matured (l : Ledger) (today : Int) (i : Nat)
    (inv : Investment)
    (hfind : assocFind l.investments i = some inv)
    (hskip : statusOf l inv.userId = none
      ∨ statusOf l inv.userId = some UserStatus.blocked)
    (hend : inv.endDate ≤ today) :
    accrueStep l today i
      = { l with investments := assocSet l.investments i { inv with status := .completed } } := by
  unfold accrueStep
  cases huser : assocFind l.users inv.userId with
  | none => simp [hfind, huser, hend]
  | some user =>
    have hb : user.status = UserStatus.blocked := by
      rcases hskip with h | h <;> rw [statusOf, huser] at h
      · cases h
      · simpa using h
    simp [hfind, huser, hb, hend]

/-- C3: an active, gate-admitted investment whose `endDate` is on or before
`today` and whose owner exists and is not blocked is marked `completed` by the
daily batch and removed from the owner's active-investment list, its
accumulated profit untouched; and once an investment is `completed` no batch
run ever writes it again, so it never receives another profit credit. -/
theorem batch_completes_matured (l : Ledger) (today : Int) (i : Nat)
    (inv : Investment) (user : User)
    (hndU : (l.users.map Prod.fst).Nodup)
    (hndI : (l.investments.map Prod.fst).Nodup)
    (hfind : assocFind l.investments i = some inv)
    (hgate : gate today inv = true)
    (hmat : inv.endDate ≤ today)
    (huser : assocFind l.users inv.userId = some user)
    (hnb : user.status ≠ UserStatus.blocked) :
    assocFind (processDailyProfitsAndCommissions l today).investments i
        = some { inv with status := InvStatus.completed }
    ∧ (∃ u', assocFind (processDailyProfitsAndCommissions l today).users inv.userId
        = some u' ∧ i ∉ u'.activeInvestments)
    ∧ (∀ (m : Ledger) (d : Int) (j : Nat) (inv₂ : Investment),
        (m.investments.map Prod.fst).Nodup →
        assocFind m.investments j = some inv₂ → inv₂.status = InvStatus.completed →
        assocFind (processDailyProfitsAndCommissions m d).investments j = some inv₂) := by
  have hisel : i ∈ selectedIds l today :=
    (mem_selectedIds_iff l today i hndI).mpr ⟨inv, hfind, hgate⟩
  obtain ⟨pre, post, hids, hipre, hipost⟩ :=
    nodup_split hisel (selectedIds_nodup l today hndI)
  have hU0 : ((runIds l today pre).users.map Prod.fst).Nodup := by
    rw [runIds_users_keys]; exact hndU
  have hfind0 : assocFind (runIds l today pre).investments i = some inv := by
    rw [runIds_investments_ne _ _ _ _ hipre]; exact hfind
  have hst0 : statusOf (runIds l today pre) inv.userId = some user.status := by
    rw [runIds_statusOf _ _ _ _ hndU, statusOf, huser]; rfl
  obtain ⟨user0, huser0, hus0⟩ : ∃ u0,
      assocFind (runIds l today pre).users inv.userId = some u0
        ∧ u0.status = user.status := by
    cases hx : assocFind (runIds l today pre).users inv.userId with
    | none => rw [statusOf, hx] at hst0; cases hst0
    | some u0 => rw [statusOf, hx] at hst0; exact ⟨u0, rfl, by simpa using hst0⟩
  have hnb0 : user0.status ≠ UserStatus.blocked := by rw [hus0]; exact hnb
  have hstep := accrueStep_maturity_active (runIds l today pre) today i inv user0
    hfind0 huser0 hnb0 hmat
  have hbatch : processDailyProfitsAndCommissions l today
      = runIds (accrueStep (runIds l today pre) today i) today post := by
    rw [processDaily_def, hids, runIds_append, runIds_cons]
  refine ⟨?_, ?_, ?_⟩
  · rw [hbatch, runIds_investments_ne _ _ _ _ hipost, hstep]
    show assocFind (assocSet (runIds l today pre).investments i
      { inv with status := .completed }) i = _
    rw [assocFind_set_self, hfind0]
    rfl
  · rw [hbatch]
    apply runIds_userList _ _ _ _ (fun xs => i ∉ xs)
    · rw [hstep]
      show ((assocSet (runIds l today pre).users inv.userId _).map Prod.fst).Nodup
      rw [assocSet_keys]
      exact hU0
    · intro j hj xs hxs hmem
      exact hxs (List.mem_filter.mp hmem).1
    · rw [hstep]
      refine ⟨{ user0 with activeInvestments :=
          user0.activeInvestments.filter (fun j => j ≠ i) }, ?_, ?_⟩
      · show assocFind (assocSet (runIds l today pre).users inv.userId
          { user0 with activeInvestments :=
              user0.activeInvestments.filter (fun j => j ≠ i) }) inv.userId = _
        rw [assocFind_set_self, huser0]
        rfl
      · intro hmem
        simpa using (List.mem_filter.mp hmem).2
  · intro m d j inv₂ hnd hf hc
    exact completed_stays m d j inv₂ hnd hf (by rw [hc]; simp)

/-- C8 (amended): for a gate-admitted active investment whose owner is
missing or blocked, the batch credits no profit (the investment document is
untouched when unmatured), still completes it at maturity, but does NOT
detach it from the owner's active-investment list; and with that investment
alone in the store the batch leaves every user document unchanged (no profit,
no commission). -/
theorem batch_blocked_owner (l : Ledger) (today : Int) (i : Nat) (inv : Investment)
    (hndU : (l.users.map Prod.fst).Nodup)
    (hndI : (l.investments.map Prod.fst).Nodup)
    (hfind : assocFind l.investments i = some inv)
    (hgate : gate today inv = true)
    (hskip : statusOf l inv.userId = none
      ∨ statusOf l inv.userId = some UserStatus.blocked) :
    (inv.endDate ≤ today →
      assocFind (processDailyProfitsAndCommissions l today).investments i
        = some { inv with status := InvStatus.completed })
    ∧ (today < inv.endDate →
      assocFind (processDailyProfitsAndCommissions l today).investments i = some inv)
    ∧ (∀ u, assocFind l.users inv.userId = some u → i ∈ u.activeInvestments →
      ∃ u', assocFind (processDailyProfitsAndCommissions l today).users inv.userId
        = some u' ∧ i ∈ u'.activeInvestments)
    ∧ (l.investments = [(i, inv)] →
      (processDailyProfitsAndCommissions l today).users = l.users) := by
  have hisel : i ∈ selectedIds l today :=
    (mem_selectedIds_iff l today i hndI).mpr ⟨inv, hfind, hgate⟩
  obtain ⟨pre, post, hids, hipre, hipost⟩ :=
    nodup_split hisel (selectedIds_nodup l today hndI)
  have hU0 : ((runIds l today pre).users.map Prod.fst).Nodup := by
    rw [runIds_users_keys]; exact hndU
  have hfind0 : assocFind (runIds l today pre).investments i = some inv := by
    rw [runIds_investments_ne _ _ _ _ hipre]; exact hfind
  have hskip0 : statusOf (runIds l today pre) inv.userId = none
      ∨ statusOf (runIds l today pre) inv.userId = some UserStatus.blocked := by
    rw [runIds_statusOf _ _ _ _ hndU]; exact hskip
  have hbatch : processDailyProfitsAndCommissions l today
      = runIds (accrueStep (runIds l today pre) today i) today post := by
    rw [processDaily_def, hids, runIds_append, runIds_cons]
  refine ⟨?_, ?_, ?_, ?_⟩
  · intro hend
    rw [hbatch, runIds_investments_ne _ _ _ _ hipost,
      accrueStep_skipOwner_matured _ _ _ _ hfind0 hskip0 hend]
    show assocFind (assocSet (runIds l today pre).investments i
      { inv with status := .completed }) i = _
    rw [assocFind_set_self, hfind0]
    rfl
  · intro hend
    rw [hbatch, runIds_investments_ne _ _ _ _ hipost,
      accrueStep_skip _ _ _ _ hfind0 hskip0 hend]
    exact hfind0
  · intro u hu hmem
    rw [hbatch]
    have husers : (accrueStep (runIds l today pre) today i).users
        = (runIds l today pre).users :=
      accrueStep_skipOwner_users _ _ _ _ hfind0 hskip0
    have hpre : ∃ u0, assocFind (runIds l today pre).users inv.userId = some u0
        ∧ i ∈ u0.activeInvestments := by
      apply runIds_userList _ _ _ _ (fun xs => i ∈ xs) hndU
      · intro j hj xs hxs
        have hji : i ≠ j := fun h => hipre (h ▸ hj)
        exact List.mem_filter.mpr ⟨hxs, by simp [hji]⟩
      · exact ⟨u, hu, hmem⟩
    apply runIds_userList _ _ _ _ (fun xs => i ∈ xs)
    · rw [husers]; exact hU0
    · intro j hj xs hxs
      have hji : i ≠ j := fun h => hipost (h ▸ hj)
      exact List.mem_filter.mpr ⟨hxs, by simp [hji]⟩
    · rw [husers]; exact hpre
  · intro hone
    have hsel : selectedIds l today = [i] := by
      rw [selectedIds, hone]
      simp only [List.filter]
      rw [hone] at hfind
      have : assocFind [(i, inv)] i = some inv := hfind
      simp [assocFind] at this
      simp [hgate]
    rw [processDaily_def, hsel, runIds_cons]
    show (accrueStep l today i).users = l.users
    exact accrueStep_skipOwner_users _ _ _ _ hfind hskip

/-- Blocked owner used in the C8 counterexample store. -/
def cex8User : User :=
  { phoneNumber := "843333333", balance := 50, status := .blocked,
    visitorId := "v8", referralCode := "B1", invitedBy := none,
    referredUsers := [], activeInvestments := [5], withdrawalHistory := [] }

/-- Matured active investment of the blocked owner in the C8 counterexample. -/
def cex8Inv : Investment :=
  { userId := 0, planId := 0, investedAmount := 100, dailyProfitRate := 1/100,
    startDate := 100, endDate := 150, currentProfit := 7,
    lastProfitCreditDate := some 149, status := .active }

/-- Store for the C8 counterexample: one blocked user owning one matured,
gate-admitted investment. -/
def cex8Ledger : Ledger :=
  { users := [(0, cex8User)], plans := [], investments := [(5, cex8Inv)],
    withdrawals := [], config := none }

/-- C8 counterexample: running the daily batch on a matured investment of a
blocked owner marks it `completed` but does NOT detach it from the owner's
active-investment list — the list still contains the investment, contradicting
the claim that it is closed out per the maturity rule. -/
theorem blocked_owner_not_detached :
    (assocFind (processDailyProfitsAndCommissions cex8Ledger 200).investments 5).map
        Investment.status = some InvStatus.completed
    ∧ (assocFind (processDailyProfitsAndCommissions cex8Ledger 200).users 0).map
        User.activeInvestments = some [5]
    ∧ cex8User.status = UserStatus.blocked
    ∧ cex8Inv.endDate ≤ 200 := by decide

/- ### Two-user stores: exact effect of Activate / Upgrade / accrual -/

/-- Two-user activation store: buyer id 0, candidate referrer id 1. -/
def actLedger (u r : User) (plan : InvestmentPlan) (cfg : AdminConfig) : Ledger :=
  { users := [(0, u), (1, r)], plans := [(0, plan)], investments := [],
    withdrawals := [], config := some cfg }

/-- Exact effect of a successful activation with an invited buyer whose
referral code resolves to user 1 — note no hypothesis on the referrer's
status. -/
theorem activate_master (u r : User) (plan : InvestmentPlan) (cfg : AdminConfig)
    (now : Int) (code : String)
    (hact : plan.isActive = true)
    (hempty : u.activeInvestments = [])
    (hpos : 0 < plan.minAmount)
    (hbal : plan.minAmount ≤ u.balance)
    (hinv : u.invitedBy = some code)
    (hcode : code ≠ "")
    (hself : u.referralCode ≠ code)
    (hr : r.referralCode = code)
    (hpromo : cfg.isPromotionActive = true)
    (hrate : 0 < cfg.commissionOnPlanActivation) :
    activateInvestment (actLedger u r plan cfg) 0 0 now 7
      = (ActivateResult.success 7,
        { users := [
            (0, { u with
                  balance := u.balance - plan.minAmount
                  activeInvestments := [7] }),
            (1, { r with
                  balance := r.balance + plan.minAmount * cfg.commissionOnPlanActivation })],
          plans := [(0, plan)],
          investments := [
            (7, { userId := 0
                  planId := 0
                  investedAmount := plan.minAmount
                  dailyProfitRate := plan.dailyProfitRate
                  startDate := now
                  endDate := now + plan.durationDays
                  currentProfit := 0
                  lastProfitCreditDate := some now
                  status := .active })],
          withdrawals := [], config := some cfg }) := by
  unfold activateInvestment actLedger
  simp [assocFind, assocSet, findUserByReferralCode, findByCode,
    activationCommissionGate, jsTruthyStr, hact, hempty, hinv, hr, hself,
    hpromo, hrate, not_le.mpr hpos, not_lt.mpr hbal, hempty,
    String.isEmpty_iff, hcode]

/-- Exact effect of a successful activation with no referral link. -/
theorem activate_master_noref (u r : User) (plan : InvestmentPlan)
    (cfg : AdminConfig) (now : Int)
    (hact : plan.isActive = true)
    (hempty : u.activeInvestments = [])
    (hpos : 0 < plan.minAmount)
    (hbal : plan.minAmount ≤ u.balance)
    (hinv : u.invitedBy = none) :
    activateInvestment (actLedger u r plan cfg) 0 0 now 7
      = (ActivateResult.success 7,
        { users := [
            (0, { u with
                  balance := u.balance - plan.minAmount
                  activeInvestments := [7] }),
            (1, r)],
          plans := [(0, plan)],
          investments := [
            (7, { userId := 0
                  planId := 0
                  investedAmount := plan.minAmount
                  dailyProfitRate := plan.dailyProfitRate
                  startDate := now
                  endDate := now + plan.durationDays
                  currentProfit := 0
                  lastProfitCreditDate := some now
                  status := .active })],
          withdrawals := [], config := some cfg }) := by
  unfold activateInvestment actLedger
  simp [assocFind, assocSet, findUserByReferralCode, findByCode,
    activationCommissionGate, jsTruthyStr, hact, hempty, hinv,
    not_le.mpr hpos, not_lt.mpr hbal]

/-- Two-user upgrade store: user id 0 owns investment 5 bought on plan 0; the
upgrade target is plan 1; candidate referrer is user 1. -/
def upgLedger (u r : User) (curPlan newPlan : InvestmentPlan) (inv : Investment)
    (cfg : AdminConfig) : Ledger :=
  { users := [(0, u), (1, r)], plans := [(0, curPlan), (1, newPlan)],
    investments := [(5, inv)], withdrawals := [], config := some cfg }

/-- Exact effect of a successful upgrade with an invited user whose referral
code resolves to user 1 — again no hypothesis on the referrer's status. -/
theorem upgrade_master (u r : User) (curPlan newPlan : InvestmentPlan)
    (inv : Investment) (cfg : AdminConfig) (now : Int) (code : String)
    (hact : newPlan.isActive = true)
    (hai : u.activeInvestments = [5])
    (hip : inv.planId = 0)
    (hhi : inv.investedAmount < newPlan.minAmount)
    (hbal : newPlan.minAmount - inv.investedAmount ≤ u.balance)
    (hinv : u.invitedBy = some code)
    (hcode : code ≠ "")
    (hself : u.referralCode ≠ code)
    (hr : r.referralCode = code)
    (hpromo : cfg.isPromotionActive = true)
    (hrate : 0 < cfg.commissionOnPlanActivation) :
    upgradeInvestment (upgLedger u r curPlan newPlan inv cfg) 0 1 now
      = (UpgradeResult.success,
        { users := [
            (0, { u with
                  balance := u.balance - (newPlan.minAmount - inv.investedAmount) }),
            (1, { r with
                  balance := r.balance +
                    (newPlan.minAmount - inv.investedAmount) *
                      cfg.commissionOnPlanActivation })],
          plans := [(0, curPlan), (1, newPlan)],
          investments := [
            (5, { inv with
                  planId := 1
                  investedAmount := newPlan.minAmount
                  dailyProfitRate := newPlan.dailyProfitRate
                  endDate := now + newPlan.durationDays
                  lastProfitCreditDate := some now })],
          withdrawals := [], config := some cfg }) := by
  unfold upgradeInvestment upgLedger
  simp [assocFind, assocSet, findUserByReferralCode, findByCode,
    activationCommissionGate, jsTruthyStr, hact, hai, hip, hinv, hr, hself,
    hpromo, hrate, not_le.mpr hhi, not_lt.mpr hbal, String.isEmpty_iff, hcode]

/-- Exact effect of a successful upgrade with no referral link. -/
theorem upgrade_master_noref (u r : User) (curPlan newPlan : InvestmentPlan)
    (inv : Investment) (cfg : AdminConfig) (now : Int)
    (hact : newPlan.isActive = true)
    (hai : u.activeInvestments = [5])
    (hip : inv.planId = 0)
    (hhi : inv.investedAmount < newPlan.minAmount)
    (hbal : newPlan.minAmount - inv.investedAmount ≤ u.balance)
    (hinv : u.invitedBy = none) :
    upgradeInvestment (upgLedger u r curPlan newPlan inv cfg) 0 1 now
      = (UpgradeResult.success,
        { users := [
            (0, { u with
                  balance := u.balance - (newPlan.minAmount - inv.investedAmount) }),
            (1, r)],
          plans := [(0, curPlan), (1, newPlan)],
          investments := [
            (5, { inv with
                  planId := 1
                  investedAmount := newPlan.minAmount
                  dailyProfitRate := newPlan.dailyProfitRate
                  endDate := now + newPlan.durationDays
                  lastProfitCreditDate := some now })],
          withdrawals := [], config := some cfg }) := by
  unfold upgradeInvestment upgLedger
  simp [assocFind, assocSet, findUserByReferralCode, findByCode,
    activationCommissionGate, jsTruthyStr, hact, hai, hip, hinv,
    not_le.mpr hhi, not_lt.mpr hbal]

/-- Two-user accrual store: investment 5 owned by user 0, candidate referrer
user 1. -/
def accLedger (u r : User) (inv : Investment) (cfg : AdminConfig) : Ledger :=
  { users := [(0, u), (1, r)], plans := [], investments := [(5, inv)],
    withdrawals := [], config := some cfg }

/-- Exact effect of one daily batch run on a single accruable investment with
an invited active owner: the owner is credited the daily profit and the
referrer is credited the commission exactly when the referrer is active. -/
theorem accrual_master (u r : User) (inv : Investment) (cfg : AdminConfig)
    (today : Int) (code : String)
    (huid : inv.userId = 0)
    (hgate : gate today inv = true)
    (hend : today < inv.endDate)
    (hu : u.status = UserStatus.active)
    (hinv : u.invitedBy = some code)
    (hcode : code ≠ "")
    (hself : u.referralCode ≠ code)
    (hr : r.referralCode = code)
    (hpromo : cfg.isPromotionActive = true)
    (hrate : 0 < cfg.commissionOnDailyProfit) :
    processDailyProfitsAndCommissions (accLedger u r inv cfg) today
      = { users := [
            (0, { u with
                  balance := u.balance + inv.investedAmount * inv.dailyProfitRate }),
            (1, if r.status = UserStatus.active then
                  { r with
                    balance := r.balance +
                      inv.investedAmount * inv.dailyProfitRate *
                        cfg.commissionOnDailyProfit }
                else r)],
          plans := [],
          investments := [
            (5, { inv with
                  currentProfit :=
                    inv.currentProfit + inv.investedAmount * inv.dailyProfitRate
                  lastProfitCreditDate := some today })],
          withdrawals := [], config := some cfg } := by
  have hsel : selectedIds (accLedger u r inv cfg) today = [5] := by
    simp [selectedIds, accLedger, hgate]
  rw [processDaily_def, hsel, runIds_cons]
  show accrueStep (accLedger u r inv cfg) today 5 = _
  have hend' : ¬ inv.endDate ≤ today := by omega
  have hub : u.status ≠ UserStatus.blocked := by rw [hu]; simp
  have hce : code.isEmpty = false := by
    rw [Bool.eq_false_iff]
    simpa [String.isEmpty_iff] using hcode
  by_cases hrs : r.status = UserStatus.active
  · unfold accrueStep accLedger
    simp [assocFind, assocSet, findUserByReferralCode, findByCode, jsTruthyStr,
      huid, hend', hub, hinv, hr, hself, hpromo, hrate, hrs, hce]
  · unfold accrueStep accLedger
    simp [assocFind, assocSet, findUserByReferralCode, findByCode, jsTruthyStr,
      huid, hend', hub, hinv, hr, hself, hpromo, hrate, hrs, hce]

/- ### Sample documents shared by the concrete instantiations -/

/-- Sample invited buyer (referral code of the referrer is "R1"). -/
def exU : User :=
  { phoneNumber := "841111111", balance := 1000, status := .active,
    visitorId := "vA", referralCode := "A1", invitedBy := some "R1",
    referredUsers := [], activeInvestments := [], withdrawalHistory := [] }

/-- Sample active referrer. -/
def exR : User :=
  { phoneNumber := "842222222", balance := 40, status := .active,
    visitorId := "vR", referralCode := "R1", invitedBy := none,
    referredUsers := [0], activeInvestments := [], withdrawalHistory := [] }

/-- Sample blocked referrer. -/
def exRb : User := { exR with status := .blocked }

/-- Sample 500-unit plan at 2% per day. -/
def exPlan : InvestmentPlan :=
  { name := "Basic", minAmount := 500, maxAmount := 500,
    dailyProfitRate := 2/100, durationDays := 60, isActive := true }

/-- Sample 800-unit upgrade target plan at 3% per day. -/
def exPlan2 : InvestmentPlan :=
  { name := "Pro", minAmount := 800, maxAmount := 800,
    dailyProfitRate := 3/100, durationDays := 60, isActive := true }

/-- Sample global configuration. -/
def exCfg : AdminConfig :=
  { isPromotionActive := true, commissionOnPlanActivation := 5/100,
    commissionOnDailyProfit := 2/100, withdrawalStartTime := "08:00",
    withdrawalEndTime := "18:00", minWithdrawalAmount := 1,
    maxWithdrawalAmount := 5000 }

/-- Sample buyer already owning investment 5. -/
def exUI : User := { exU with activeInvestments := [5] }

/-- Sample running investment of the sample buyer. -/
def exInv : Investment :=
  { userId := 0, planId := 0, investedAmount := 500, dailyProfitRate := 2/100,
    startDate := 100, endDate := 160, currentProfit := 0,
    lastProfitCreditDate := some 100, status := .active }

/- ### C1 -/

/-- C1 counterexample: an Activate call pays the activation commission to a
BLOCKED referrer — the call succeeds and the blocked referrer's balance grows
by price * activationCommissionRate (500 * 5% = 25), refuting the claim that
the eligibility predicate (which requires referrer status 'active') is used
identically by all three commission sites. -/
theorem blocked_referrer_credited_on_activation :
    exRb.status = UserStatus.blocked
    ∧ (activateInvestment (actLedger exU exRb exPlan exCfg) 0 0 100 7).1
        = ActivateResult.success 7
    ∧ (assocFind (activateInvestment (actLedger exU exRb exPlan exCfg) 0 0 100 7).2.users 1).map
        User.balance
      = some (exRb.balance + exPlan.minAmount * exCfg.commissionOnPlanActivation)
    ∧ exRb.balance = 40
    ∧ exRb.balance + exPlan.minAmount * exCfg.commissionOnPlanActivation = 65 := by
  have h := activate_master exU exRb exPlan exCfg 100 "R1" rfl rfl
    (by norm_num [exPlan]) (by norm_num [exPlan, exU]) rfl (by decide) (by decide)
    rfl rfl (by norm_num [exCfg])
  refine ⟨rfl, ?_, ?_, rfl, ?_⟩
  · rw [h]
  · rw [h]
    simp [assocFind]
  · norm_num [exRb, exR, exPlan, exCfg]

/-- C1 (amended): the three commission sites do NOT share one eligibility
predicate.  Activate and Upgrade credit the referrer whenever the referrer
exists, the promotion flag is on and the activation rate is positive — with no
check of the referrer's status (the conclusion holds for any status, in
particular blocked) — while only the daily-accrual site additionally requires
the referrer's status to be 'active'. -/
theorem commission_eligibility_sites :
    (∀ (u r : User) (plan : InvestmentPlan) (cfg : AdminConfig) (now : Int) (code : String),
      plan.isActive = true → u.activeInvestments = [] → 0 < plan.minAmount →
      plan.minAmount ≤ u.balance → u.invitedBy = some code → code ≠ "" →
      u.referralCode ≠ code → r.referralCode = code →
      cfg.isPromotionActive = true → 0 < cfg.commissionOnPlanActivation →
      (assocFind (activateInvestment (actLedger u r plan cfg) 0 0 now 7).2.users 1).map
          User.balance
        = some (r.balance + plan.minAmount * cfg.commissionOnPlanActivation))
    ∧ (∀ (u r : User) (curPlan newPlan : InvestmentPlan) (inv : Investment)
        (cfg : AdminConfig) (now : Int) (code : String),
      newPlan.isActive = true → u.activeInvestments = [5] → inv.planId = 0 →
      inv.investedAmount < newPlan.minAmount →
      newPlan.minAmount - inv.investedAmount ≤ u.balance →
      u.invitedBy = some code → code ≠ "" → u.referralCode ≠ code →
      r.referralCode = code → cfg.isPromotionActive = true →
      0 < cfg.commissionOnPlanActivation →
      (assocFind (upgradeInvestment (upgLedger u r curPlan newPlan inv cfg) 0 1 now).2.users 1).map
          User.balance
        = some (r.balance +
            (newPlan.minAmount - inv.investedAmount) * cfg.commissionOnPlanActivation))
    ∧ (∀ (u r : User) (inv : Investment) (cfg : AdminConfig) (today : Int) (code : String),
      inv.userId = 0 → gate today inv = true → today < inv.endDate →
      u.status = UserStatus.active → u.invitedBy = some code → code ≠ "" →
      u.referralCode ≠ code → r.referralCode = code →
      cfg.isPromotionActive = true → 0 < cfg.commissionOnDailyProfit →
      (assocFind (processDailyProfitsAndCommissions (accLedger u r inv cfg) today).users 1).map
          User.balance
        = some (if r.status = UserStatus.active
            then r.balance +
              inv.investedAmount * inv.dailyProfitRate * cfg.commissionOnDailyProfit
            else r.balance)) := by
  refine ⟨?_, ?_, ?_⟩
  · intro u r plan cfg now code h1 h2 h3 h4 h5 h6 h7 h8 h9 h10
    rw [activate_master u r plan cfg now code h1 h2 h3 h4 h5 h6 h7 h8 h9 h10]
    simp [assocFind]
  · intro u r curPlan newPlan inv cfg now code h1 h2 h3 h4 h5 h6 h7 h8 h9 h10 h11
    rw [upgrade_master u r curPlan newPlan inv cfg now code h1 h2 h3 h4 h5 h6 h7 h8 h9 h10 h11]
    simp [assocFind]
  · intro u r inv cfg today code h1 h2 h3 h4 h5 h6 h7 h8 h9 h10
    rw [accrual_master u r inv cfg today code h1 h2 h3 h4 h5 h6 h7 h8 h9 h10]
    by_cases hrs : r.status = UserStatus.active <;> simp [assocFind, hrs]

/-- Witness for the amended C1 theorem at concrete stores: an (even blocked)
referrer is paid 25 on a 500 activation and 15 on a 500→800 upgrade, and the
daily-accrual commission of a blocked referrer is zero (balance unchanged). -/
theorem commission_eligibility_sites_witness :
    (assocFind (activateInvestment (actLedger exU exRb exPlan exCfg) 0 0 100 7).2.users 1).map
        User.balance
      = some (exRb.balance + exPlan.minAmount * exCfg.commissionOnPlanActivation)
    ∧ (assocFind (upgradeInvestment (upgLedger exUI exRb exPlan exPlan2 exInv exCfg) 0 1 100).2.users 1).map
        User.balance
      = some (exRb.balance +
          (exPlan2.minAmount - exInv.investedAmount) * exCfg.commissionOnPlanActivation)
    ∧ (assocFind (processDailyProfitsAndCommissions (accLedger exUI exRb exInv exCfg) 101).users 1).map
        User.balance
      = some (if exRb.status = UserStatus.active
          then exRb.balance +
            exInv.investedAmount * exInv.dailyProfitRate * exCfg.commissionOnDailyProfit
          else exRb.balance) :=
  ⟨commission_eligibility_sites.1 exU exRb exPlan exCfg 100 "R1" rfl rfl
      (by norm_num [exPlan]) (by norm_num [exPlan, exU]) rfl (by decide) (by decide)
      rfl rfl (by norm_num [exCfg]),
   commission_eligibility_sites.2.1 exUI exRb exPlan exPlan2 exInv exCfg 100 "R1" rfl rfl
      rfl (by norm_num [exInv, exPlan2]) (by norm_num [exInv, exPlan2, exUI, exU]) rfl
      (by decide) (by decide) rfl rfl (by norm_num [exCfg]),
   commission_eligibility_sites.2.2 exUI exRb exInv exCfg 101 "R1" rfl (by decide)
      (by decide) rfl rfl (by decide) (by decide) rfl rfl (by norm_num [exCfg])⟩

/-- Exact effect of one daily batch run on a single accruable investment whose
active owner has no referral link: profit only, nobody else touched. -/
theorem accrual_master_noref (u r : User) (inv : Investment) (cfg : AdminConfig)
    (today : Int)
    (huid : inv.userId = 0)
    (hgate : gate today inv = true)
    (hend : today < inv.endDate)
    (hu : u.status = UserStatus.active)
    (hinv : u.invitedBy = none) :
    processDailyProfitsAndCommissions (accLedger u r inv cfg) today
      = { users := [
            (0, { u with
                  balance := u.balance + inv.investedAmount * inv.dailyProfitRate }),
            (1, r)],
          plans := [],
          investments := [
            (5, { inv with
                  currentProfit :=
                    inv.currentProfit + inv.investedAmount * inv.dailyProfitRate
                  lastProfitCreditDate := some today })],
          withdrawals := [], config := some cfg } := by
  have hsel : selectedIds (accLedger u r inv cfg) today = [5] := by
    simp [selectedIds, accLedger, hgate]
  rw [processDaily_def, hsel, runIds_cons]
  show accrueStep (accLedger u r inv cfg) today 5 = _
  have hend' : ¬ inv.endDate ≤ today := by omega
  have hub : u.status ≠ UserStatus.blocked := by rw [hu]; simp
  unfold accrueStep accLedger
  simp [assocFind, assocSet, jsTruthyStr, huid, hend', hub, hinv]

/- ### C4 -/

/-- C4: a successful Activate debits exactly the plan price, creates the
investment with investedAmount = price, dailyRate copied from the plan and
endDate = now + durationDays, and credits an eligible referrer exactly
price * activationCommissionRate (an absent referrer link leaves everyone else
untouched); a successful Upgrade debits exactly the price difference and
credits an eligible referrer exactly difference * activationCommissionRate. -/
theorem activate_upgrade_effects :
    (∀ (u r : User) (plan : InvestmentPlan) (cfg : AdminConfig) (now : Int) (code : String),
      plan.isActive = true → u.activeInvestments = [] → 0 < plan.minAmount →
      plan.minAmount ≤ u.balance → u.invitedBy = some code → code ≠ "" →
      u.referralCode ≠ code → r.referralCode = code → r.status = UserStatus.active →
      cfg.isPromotionActive = true → 0 < cfg.commissionOnPlanActivation →
      (activateInvestment (actLedger u r plan cfg) 0 0 now 7).1 = ActivateResult.success 7
      ∧ (assocFind (activateInvestment (actLedger u r plan cfg) 0 0 now 7).2.users 0).map
          User.balance = some (u.balance - plan.minAmount)
      ∧ assocFind (activateInvestment (actLedger u r plan cfg) 0 0 now 7).2.investments 7
          = some { userId := 0
                   planId := 0
                   investedAmount := plan.minAmount
                   dailyProfitRate := plan.dailyProfitRate
                   startDate := now
                   endDate := now + plan.durationDays
                   currentProfit := 0
                   lastProfitCreditDate := some now
                   status := .active }
      ∧ (assocFind (activateInvestment (actLedger u r plan cfg) 0 0 now 7).2.users 1).map
          User.balance = some (r.balance + plan.minAmount * cfg.commissionOnPlanActivation))
    ∧ (∀ (u r : User) (plan : InvestmentPlan) (cfg : AdminConfig) (now : Int),
      plan.isActive = true → u.activeInvestments = [] → 0 < plan.minAmount →
      plan.minAmount ≤ u.balance → u.invitedBy = none →
      (activateInvestment (actLedger u r plan cfg) 0 0 now 7).1 = ActivateResult.success 7
      ∧ (assocFind (activateInvestment (actLedger u r plan cfg) 0 0 now 7).2.users 0).map
          User.balance = some (u.balance - plan.minAmount)
      ∧ assocFind (activateInvestment (actLedger u r plan cfg) 0 0 now 7).2.investments 7
          = some { userId := 0
                   planId := 0
                   investedAmount := plan.minAmount
                   dailyProfitRate := plan.dailyProfitRate
                   startDate := now
                   endDate := now + plan.durationDays
                   currentProfit := 0
                   lastProfitCreditDate := some now
                   status := .active }
      ∧ assocFind (activateInvestment (actLedger u r plan cfg) 0 0 now 7).2.users 1 = some r)
    ∧ (∀ (u r : User) (curPlan newPlan : InvestmentPlan) (inv : Investment)
        (cfg : AdminConfig) (now : Int) (code : String),
      newPlan.isActive = true → u.activeInvestments = [5] → inv.planId = 0 →
      inv.investedAmount < newPlan.minAmount →
      newPlan.minAmount - inv.investedAmount ≤ u.balance →
      u.invitedBy = some code → code ≠ "" → u.referralCode ≠ code →
      r.referralCode = code → r.status = UserStatus.active →
      cfg.isPromotionActive = true → 0 < cfg.commissionOnPlanActivation →
      (upgradeInvestment (upgLedger u r curPlan newPlan inv cfg) 0 1 now).1
          = UpgradeResult.success
      ∧ (assocFind (upgradeInvestment (upgLedger u r curPlan newPlan inv cfg) 0 1 now).2.users 0).map
          User.balance = some (u.balance - (newPlan.minAmount - inv.investedAmount))
      ∧ (assocFind (upgradeInvestment (upgLedger u r curPlan newPlan inv cfg) 0 1 now).2.users 1).map
          User.balance = some (r.balance +
            (newPlan.minAmount - inv.investedAmount) * cfg.commissionOnPlanActivation))
    ∧ (∀ (u r : User) (curPlan newPlan : InvestmentPlan) (inv : Investment)
        (cfg : AdminConfig) (now : Int),
      newPlan.isActive = true → u.activeInvestments = [5] → inv.planId = 0 →
      inv.investedAmount < newPlan.minAmount →
      newPlan.minAmount - inv.investedAmount ≤ u.balance →
      u.invitedBy = none →
      (upgradeInvestment (upgLedger u r curPlan newPlan inv cfg) 0 1 now).1
          = UpgradeResult.success
      ∧ (assocFind (upgradeInvestment (upgLedger u r curPlan newPlan inv cfg) 0 1 now).2.users 0).map
          User.balance = some (u.balance - (newPlan.minAmount - inv.investedAmount))
      ∧ assocFind (upgradeInvestment (upgLedger u r curPlan newPlan inv cfg) 0 1 now).2.users 1
          = some r) := by
  refine ⟨?_, ?_, ?_, ?_⟩
  · intro u r plan cfg now code h1 h2 h3 h4 h5 h6 h7 h8 _h9 h10 h11
    have h := activate_master u r plan cfg now code h1 h2 h3 h4 h5 h6 h7 h8 h10 h11
    exact ⟨by rw [h], by rw [h]; simp [assocFind], by rw [h]; simp [assocFind],
      by rw [h]; simp [assocFind]⟩
  · intro u r plan cfg now h1 h2 h3 h4 h5
    have h := activate_master_noref u r plan cfg now h1 h2 h3 h4 h5
    exact ⟨by rw [h], by rw [h]; simp [assocFind], by rw [h]; simp [assocFind],
      by rw [h]; simp [assocFind]⟩
  · intro u r curPlan newPlan inv cfg now code h1 h2 h3 h4 h5 h6 h7 h8 h9 _h10 h11 h12
    have h := upgrade_master u r curPlan newPlan inv cfg now code h1 h2 h3 h4 h5 h6 h7 h8 h9 h11 h12
    exact ⟨by rw [h], by rw [h]; simp [assocFind], by rw [h]; simp [assocFind]⟩
  · intro u r curPlan newPlan inv cfg now h1 h2 h3 h4 h5 h6
    have h := upgrade_master_noref u r curPlan newPlan inv cfg now h1 h2 h3 h4 h5 h6
    exact ⟨by rw [h], by rw [h]; simp [assocFind], by rw [h]; simp [assocFind]⟩

/-- Witness for C4 at concrete stores (active referrer, 500 plan, 5% rate;
800 upgrade target). -/
theorem activate_upgrade_effects_witness :
    ((activateInvestment (actLedger exU exR exPlan exCfg) 0 0 100 7).1
        = ActivateResult.success 7
      ∧ (assocFind (activateInvestment (actLedger exU exR exPlan exCfg) 0 0 100 7).2.users 0).map
          User.balance = some (exU.balance - exPlan.minAmount)
      ∧ assocFind (activateInvestment (actLedger exU exR exPlan exCfg) 0 0 100 7).2.investments 7
          = some { userId := 0
                   planId := 0
                   investedAmount := exPlan.minAmount
                   dailyProfitRate := exPlan.dailyProfitRate
                   startDate := 100
                   endDate := 100 + exPlan.durationDays
                   currentProfit := 0
                   lastProfitCreditDate := some 100
                   status := .active }
      ∧ (assocFind (activateInvestment (actLedger exU exR exPlan exCfg) 0 0 100 7).2.users 1).map
          User.balance
        = some (exR.balance + exPlan.minAmount * exCfg.commissionOnPlanActivation))
    ∧ ((upgradeInvestment (upgLedger exUI exR exPlan exPlan2 exInv exCfg) 0 1 100).1
        = UpgradeResult.success
      ∧ (assocFind (upgradeInvestment (upgLedger exUI exR exPlan exPlan2 exInv exCfg) 0 1 100).2.users 0).map
          User.balance = some (exUI.balance - (exPlan2.minAmount - exInv.investedAmount))
      ∧ (assocFind (upgradeInvestment (upgLedger exUI exR exPlan exPlan2 exInv exCfg) 0 1 100).2.users 1).map
          User.balance
        = some (exR.balance +
            (exPlan2.minAmount - exInv.investedAmount) * exCfg.commissionOnPlanActivation)) :=
  ⟨activate_upgrade_effects.1 exU exR exPlan exCfg 100 "R1" rfl rfl
      (by norm_num [exPlan]) (by norm_num [exPlan, exU]) rfl (by decide) (by decide)
      rfl rfl rfl (by norm_num [exCfg]),
   activate_upgrade_effects.2.2.1 exUI exR exPlan exPlan2 exInv exCfg 100 "R1" rfl rfl
      rfl (by norm_num [exInv, exPlan2]) (by norm_num [exInv, exPlan2, exUI, exU]) rfl
      (by decide) (by decide) rfl rfl rfl (by norm_num [exCfg])⟩

/- ### C5 -/

/-- C5: for an investment the daily batch accrues (gate-admitted, active, not
matured, owner active), the batch adds exactly investedAmount * dailyRate to
the investment's accumulated profit and to the owner's balance and sets
lastProfitCreditDate to today; when the daily-commission conditions hold
(promotion on, positive rate, referral link resolving to an active referrer)
the referrer additionally gains exactly dailyProfit * dailyProfitCommissionRate. -/
theorem daily_accrual_amounts :
    (∀ (u r : User) (inv : Investment) (cfg : AdminConfig) (today : Int),
      inv.userId = 0 → gate today inv = true → today < inv.endDate →
      u.status = UserStatus.active → u.invitedBy = none →
      assocFind (processDailyProfitsAndCommissions (accLedger u r inv cfg) today).investments 5
          = some { inv with
                   currentProfit :=
                     inv.currentProfit + inv.investedAmount * inv.dailyProfitRate
                   lastProfitCreditDate := some today }
      ∧ (assocFind (processDailyProfitsAndCommissions (accLedger u r inv cfg) today).users 0).map
          User.balance = some (u.balance + inv.investedAmount * inv.dailyProfitRate)
      ∧ assocFind (processDailyProfitsAndCommissions (accLedger u r inv cfg) today).users 1
          = some r)
    ∧ (∀ (u r : User) (inv : Investment) (cfg : AdminConfig) (today : Int) (code : String),
      inv.userId = 0 → gate today inv = true → today < inv.endDate →
      u.status = UserStatus.active → u.invitedBy = some code → code ≠ "" →
      u.referralCode ≠ code → r.referralCode = code → r.status = UserStatus.active →
      cfg.isPromotionActive = true → 0 < cfg.commissionOnDailyProfit →
      assocFind (processDailyProfitsAndCommissions (accLedger u r inv cfg) today).investments 5
          = some { inv with
                   currentProfit :=
                     inv.currentProfit + inv.investedAmount * inv.dailyProfitRate
                   lastProfitCreditDate := some today }
      ∧ (assocFind (processDailyProfitsAndCommissions (accLedger u r inv cfg) today).users 0).map
          User.balance = some (u.balance + inv.investedAmount * inv.dailyProfitRate)
      ∧ (assocFind (processDailyProfitsAndCommissions (accLedger u r inv cfg) today).users 1).map
          User.balance = some (r.balance +
            inv.investedAmount * inv.dailyProfitRate * cfg.commissionOnDailyProfit)) := by
  refine ⟨?_, ?_⟩
  · intro u r inv cfg today h1 h2 h3 h4 h5
    have h := accrual_master_noref u r inv cfg today h1 h2 h3 h4 h5
    exact ⟨by rw [h]; simp [assocFind], by rw [h]; simp [assocFind],
      by rw [h]; simp [assocFind]⟩
  · intro u r inv cfg today code h1 h2 h3 h4 h5 h6 h7 h8 h9 h10 h11
    have h := accrual_master u r inv cfg today code h1 h2 h3 h4 h5 h6 h7 h8 h10 h11
    refine ⟨by rw [h]; simp [assocFind], by rw [h]; simp [assocFind], ?_⟩
    rw [h]
    simp [assocFind, h9]

/-- Witness for C5 at a concrete store: the 500-unit investment at 2% accrues
10 to the owner and 0.2 commission to the active referrer. -/
theorem daily_accrual_amounts_witness :
    assocFind (processDailyProfitsAndCommissions (accLedger exUI exR exInv exCfg) 101).investments 5
        = some { exInv with
                 currentProfit :=
                   exInv.currentProfit + exInv.investedAmount * exInv.dailyProfitRate
                 lastProfitCreditDate := some 101 }
    ∧ (assocFind (processDailyProfitsAndCommissions (accLedger exUI exR exInv exCfg) 101).users 0).map
        User.balance = some (exUI.balance + exInv.investedAmount * exInv.dailyProfitRate)
    ∧ (assocFind (processDailyProfitsAndCommissions (accLedger exUI exR exInv exCfg) 101).users 1).map
        User.balance = some (exR.balance +
          exInv.investedAmount * exInv.dailyProfitRate * exCfg.commissionOnDailyProfit) :=
  daily_accrual_amounts.2 exUI exR exInv exCfg 101 "R1" rfl (by decide) (by decide)
    rfl rfl (by decide) (by decide) rfl rfl rfl (by norm_num [exCfg])

/- ### C6 -/

/-- C6: an Upgrade call whose new plan's price is less than or equal to the
current invested amount fails with the PriceNotHigher error and returns the
store completely unchanged — no partial effect on any balance or the existing
investment. -/
theorem upgrade_price_not_higher (l : Ledger) (userId newPlanId : Nat) (now : Int)
    (user : User) (newPlan : InvestmentPlan) (inv : Investment)
    (curPlan : InvestmentPlan) (firstId : Nat) (rest : List Nat)
    (huser : assocFind l.users userId = some user)
    (hplan : assocFind l.plans newPlanId = some newPlan)
    (hact : newPlan.isActive = true)
    (hai : user.activeInvestments = firstId :: rest)
    (hinv : assocFind l.investments firstId = some inv)
    (hcur : assocFind l.plans inv.planId = some curPlan)
    (hle : newPlan.minAmount ≤ inv.investedAmount) :
    upgradeInvestment l userId newPlanId now = (UpgradeResult.priceNotHigher, l) := by
  unfold upgradeInvestment
  simp [huser, hplan, hact, hai, hinv, hcur, hle]

/-- Witness for C6: upgrading the sample 500-unit investment to another
500-unit plan (equal price) is rejected with PriceNotHigher and the store is
unchanged. -/
theorem upgrade_price_not_higher_witness :
    upgradeInvestment (upgLedger exUI exR exPlan exPlan exInv exCfg) 0 1 100
      = (UpgradeResult.priceNotHigher, upgLedger exUI exR exPlan exPlan exInv exCfg) :=
  upgrade_price_not_higher (upgLedger exUI exR exPlan exPlan exInv exCfg) 0 1 100
    exUI exPlan exInv exPlan 5 [] rfl rfl rfl rfl rfl rfl (by norm_num [exPlan, exInv])

/- ### C9 -/

/-- Single-user store for the C9 counterexample (standard 08:00–18:00
window). -/
def cex9Ledger : Ledger :=
  { users := [(0, { exU with invitedBy := none })], plans := [], investments := [],
    withdrawals := [], config := some exCfg }

/-- C9 counterexample: with the configured window 08:00–18:00, a withdrawal
request at exactly the end time (18:00 = minute 1080) passes the time check
and succeeds — the code's comparison is inclusive at the end, refuting the
half-open [start, end) reading under which that request is rejected. -/
theorem withdrawal_at_end_time_admitted :
    parseTime exCfg.withdrawalEndTime = 1080
    ∧ isWithdrawalTimeAllowed 1080 exCfg.withdrawalStartTime exCfg.withdrawalEndTime = true
    ∧ (requestWithdrawal cex9Ledger 0 50 "mpesa" 1080 3).1 = WithdrawResult.success 3 := by
  decide

/-- C9 (amended): for well-formed HH:MM strings the admission check is the
CLOSED interval [start, end] in local clock minutes: a request is admitted
exactly when start ≤ t ∧ t ≤ end, so a request at exactly the configured end
time is admitted. -/
theorem withdrawal_window_closed (t : Int) (s e : String)
    (hs : parseTime s ≠ -1) (he : parseTime e ≠ -1) :
    isWithdrawalTimeAllowed t s e = true ↔ parseTime s ≤ t ∧ t ≤ parseTime e := by
  unfold isWithdrawalTimeAllowed
  simp [hs, he, ge_iff_le]

/-- Witness for the amended C9 theorem at the configured 08:00–18:00 window
and the boundary minute 1080. -/
theorem withdrawal_window_closed_witness :
    parseTime "08:00" ≠ -1 ∧ parseTime "18:00" ≠ -1
    ∧ (isWithdrawalTimeAllowed 1080 "08:00" "18:00" = true
        ↔ parseTime "08:00" ≤ 1080 ∧ (1080 : Int) ≤ parseTime "18:00") :=
  ⟨by decide, by decide, withdrawal_window_closed 1080 "08:00" "18:00" (by decide) (by decide)⟩

/- ### C10 -/

/-- C10: a registration attempt whose visitorId is already attached to at
least one existing user is refused (HTTP 403), creates no user, switches
every existing active account with that visitorId to 'blocked', leaves every
other account unchanged, and touches no other collection. -/
theorem register_duplicate_visitor (l : Ledger) (phone pw vid : String)
    (inviteCode : Option String) (freshCode : String) (newUserId : Nat)
    (hp : phone ≠ "") (hpw : pw ≠ "") (hv : vid ≠ "")
    (hvalid : isValidPhone phone = true)
    (hdup : ∃ p ∈ l.users, p.2.visitorId = vid) :
    (registerUser l phone pw vid inviteCode freshCode newUserId).1
        = RegisterResult.deviceBlocked
    ∧ (registerUser l phone pw vid inviteCode freshCode newUserId).2.users.length
        = l.users.length
    ∧ (∀ k u, (k, u) ∈ l.users → u.visitorId = vid → u.status = UserStatus.active →
        (k, { u with status := UserStatus.blocked })
          ∈ (registerUser l phone pw vid inviteCode freshCode newUserId).2.users)
    ∧ (∀ k u, (k, u) ∈ l.users → u.visitorId ≠ vid ∨ u.status ≠ UserStatus.active →
        (k, u) ∈ (registerUser l phone pw vid inviteCode freshCode newUserId).2.users)
    ∧ (registerUser l phone pw vid inviteCode freshCode newUserId).2.investments
        = l.investments
    ∧ (registerUser l phone pw vid inviteCode freshCode newUserId).2.withdrawals
        = l.withdrawals := by
  have hany : l.users.any (fun p => p.2.visitorId == vid) = true := by
    obtain ⟨p, hpmem, he⟩ := hdup
    exact List.any_eq_true.mpr ⟨p, hpmem, by simp [he]⟩
  have hreg : registerUser l phone pw vid inviteCode freshCode newUserId
      = (RegisterResult.deviceBlocked,
        { l with users := l.users.map (fun p =>
            if p.2.visitorId = vid ∧ p.2.status = UserStatus.active then
              (p.1, { p.2 with status := UserStatus.blocked })
            else p) }) := by
    unfold registerUser
    simp [hp, hpw, hv, hvalid, hany]
  refine ⟨by rw [hreg], by rw [hreg]; simp, ?_, ?_, by rw [hreg], by rw [hreg]⟩
  · intro k u hmem hvid hst
    rw [hreg]
    simp only []
    exact List.mem_map.mpr ⟨(k, u), hmem, by simp [hvid, hst]⟩
  · intro k u hmem hcond
    rw [hreg]
    refine List.mem_map.mpr ⟨(k, u), hmem, ?_⟩
    have : ¬ (u.visitorId = vid ∧ u.status = UserStatus.active) := by tauto
    simp [this]

/-- Witness for C10: registering a second account from the sample buyer's
device blocks the buyer's account, keeps the unrelated referrer account, and
creates nobody. -/
theorem register_duplicate_visitor_witness :
    (registerUser (actLedger exU exR exPlan exCfg) "849999999" "secret7" "vA" none "Z9" 9).1
        = RegisterResult.deviceBlocked
    ∧ (registerUser (actLedger exU exR exPlan exCfg) "849999999" "secret7" "vA" none "Z9" 9).2.users.length
        = (actLedger exU exR exPlan exCfg).users.length := by
  have h := register_duplicate_visitor (actLedger exU exR exPlan exCfg)
    "849999999" "secret7" "vA" none "Z9" 9 (by decide) (by decide) (by decide)
    (by decide) ⟨(0, exU), List.mem_cons_self _ _, rfl⟩
  exact ⟨h.1, h.2.1⟩

/- ### Witnesses for the batch theorems -/

/-- Witness for C2: the batch on the sample one-investment store is
idempotent. -/
theorem processDaily_idempotent_witness :
    ((accLedger exUI exR exInv exCfg).users.map Prod.fst).Nodup
    ∧ ((accLedger exUI exR exInv exCfg).investments.map Prod.fst).Nodup
    ∧ processDailyProfitsAndCommissions
        (processDailyProfitsAndCommissions (accLedger exUI exR exInv exCfg) 101) 101
      = processDailyProfitsAndCommissions (accLedger exUI exR exInv exCfg) 101 :=
  ⟨by decide, by decide, processDaily_idempotent (accLedger exUI exR exInv exCfg) 101
      (by decide) (by decide)⟩

/-- Matured variant of the sample investment (ends at day 100, last credited
day 99). -/
def exInvM : Investment := { exInv with endDate := 100, lastProfitCreditDate := some 99 }

/-- Witness for C3: the batch completes the matured sample investment and
detaches it from its active owner. -/
theorem batch_completes_matured_witness :
    assocFind (processDailyProfitsAndCommissions
        (accLedger exUI exR exInvM exCfg) 101).investments 5
      = some { exInvM with status := InvStatus.completed }
    ∧ (∃ u', assocFind (processDailyProfitsAndCommissions
        (accLedger exUI exR exInvM exCfg) 101).users 0
      = some u' ∧ 5 ∉ u'.activeInvestments) := by
  have h := batch_completes_matured (accLedger exUI exR exInvM exCfg) 101 5 exInvM exUI
    (by decide) (by decide) rfl (by decide) (by decide) rfl (by decide)
  exact ⟨h.1, h.2.1⟩

/-- Witness for the amended C8 theorem: on the blocked-owner store the batch
completes the matured investment, leaves it attached to the owner, and changes
no user document. -/
theorem batch_blocked_owner_witness :
    assocFind (processDailyProfitsAndCommissions cex8Ledger 200).investments 5
        = some { cex8Inv with status := InvStatus.completed }
    ∧ (∃ u', assocFind (processDailyProfitsAndCommissions cex8Ledger 200).users 0 = some u'
        ∧ 5 ∈ u'.activeInvestments)
    ∧ (processDailyProfitsAndCommissions cex8Ledger 200).users = cex8Ledger.users := by
  have h := batch_blocked_owner cex8Ledger 200 5 cex8Inv (by decide) (by decide) rfl
    (by decide) (Or.inr (by decide))
  exact ⟨h.1 (by decide), h.2.2.1 cex8User rfl (by decide), h.2.2.2 rfl⟩

/- ### C7 -/

/-- C7: withdrawal lifecycle round-trip.  A request for amount X by a user
with sufficient balance (admitted by the time window and bounds) succeeds and
immediately debits X; a later rejection credits back exactly X, restoring the
pre-request balance; a later approval changes no user document; and approval
and rejection are possible only from the 'pending' state, exactly once — a
second approve/reject returns the not-pending error and changes nothing. -/
theorem withdrawal_lifecycle (l : Ledger) (userId : Nat) (amount : ℚ)
    (wallet : String) (nowMinutes : Int) (newWid : Nat) (user : User)
    (cfg : AdminConfig)
    (huser : assocFind l.users userId = some user)
    (hpos : 0 < amount)
    (hwal : wallet ≠ "")
    (hcfg : l.config = some cfg)
    (htime : isWithdrawalTimeAllowed nowMinutes cfg.withdrawalStartTime
        cfg.withdrawalEndTime = true)
    (hmin : cfg.minWithdrawalAmount ≤ amount)
    (hmax : amount ≤ cfg.maxWithdrawalAmount)
    (hbal : amount ≤ user.balance)
    (hfresh : assocFind l.withdrawals newWid = none) :
    ∃ l1,
      requestWithdrawal l userId amount wallet nowMinutes newWid
          = (WithdrawResult.success newWid, l1)
      ∧ (assocFind l1.users userId).map User.balance = some (user.balance - amount)
      ∧ (∃ l2, rejectWithdrawal l1 newWid = (AdminWResult.success, l2)
          ∧ (assocFind l2.users userId).map User.balance = some user.balance
          ∧ rejectWithdrawal l2 newWid = (AdminWResult.notPending, l2)
          ∧ approveWithdrawal l2 newWid = (AdminWResult.notPending, l2))
      ∧ (∃ l3, approveWithdrawal l1 newWid = (AdminWResult.success, l3)
          ∧ l3.users = l1.users
          ∧ approveWithdrawal l3 newWid = (AdminWResult.notPending, l3)
          ∧ rejectWithdrawal l3 newWid = (AdminWResult.notPending, l3)) := by
  have hne : ¬ (amount = 0 ∨ wallet = "") := by
    push_neg
    exact ⟨ne_of_gt hpos, hwal⟩
  have hnle : ¬ amount ≤ 0 := not_le.mpr hpos
  have hnmin : ¬ amount < cfg.minWithdrawalAmount := not_lt.mpr hmin
  have hnmax : ¬ amount > cfg.maxWithdrawalAmount := not_lt.mpr hmax
  have hnbal : ¬ user.balance < amount := not_lt.mpr hbal
  set wrec : Withdrawal :=
    { userId := userId, amount := amount, walletAddress := wallet,
      status := .pending } with hwrec
  set user1 : User :=
    { user with
      balance := user.balance - amount
      withdrawalHistory := user.withdrawalHistory ++ [newWid] } with huser1
  set L1 : Ledger :=
    { l with
      withdrawals := l.withdrawals ++ [(newWid, wrec)]
      users := assocSet l.users userId user1 } with hL1
  have hfw1 : assocFind L1.withdrawals newWid = some wrec := by
    rw [hL1]
    show assocFind (l.withdrawals ++ [(newWid, wrec)]) newWid = some wrec
    rw [assocFind_append_none _ _ _ hfresh]
    simp [assocFind]
  have hfu1 : assocFind L1.users userId = some user1 := by
    rw [hL1]
    show assocFind (assocSet l.users userId user1) userId = some user1
    rw [assocFind_set_self, huser]
    rfl
  refine ⟨L1, ?_, ?_, ?_, ?_⟩
  · unfold requestWithdrawal
    by_cases hse : cfg.withdrawalStartTime ≠ "" ∧ cfg.withdrawalEndTime ≠ ""
    · simp [hne, hnle, huser, hcfg, hse, htime, hnmin, hnmax, hnbal, hL1, hwrec, huser1]
    · simp [hne, hnle, huser, hcfg, hse, hnmin, hnmax, hnbal, hL1, hwrec, huser1]
  · rw [hfu1]
    rw [huser1]
    rfl
  · set user2 : User :=
      { user1 with balance := user1.balance + amount } with huser2
    set L2 : Ledger :=
      { L1 with
        withdrawals := assocSet L1.withdrawals newWid { wrec with status := .rejected }
        users := assocSet L1.users userId user2 } with hL2
    have hfw2 : assocFind L2.withdrawals newWid
        = some { wrec with status := .rejected } := by
      rw [hL2]
      show assocFind (assocSet L1.withdrawals newWid { wrec with status := .rejected }) newWid = _
      rw [assocFind_set_self, hfw1]
      rfl
    refine ⟨L2, ?_, ?_, ?_, ?_⟩
    · unfold rejectWithdrawal
      simp only [hfw1]
      rw [hL2, huser2]
      simp [hwrec, hfu1]
    · rw [hL2]
      show (assocFind (assocSet L1.users userId user2) userId).map User.balance = _
      rw [assocFind_set_self, hfu1]
      rw [huser2, huser1]
      simp
    · unfold rejectWithdrawal
      simp [hfw2]
    · unfold approveWithdrawal
      simp [hfw2]
  · set L3 : Ledger :=
      { L1 with
        withdrawals := assocSet L1.withdrawals newWid { wrec with status := .approved } } with hL3
    have hfw3 : assocFind L3.withdrawals newWid
        = some { wrec with status := .approved } := by
      rw [hL3]
      show assocFind (assocSet L1.withdrawals newWid { wrec with status := .approved }) newWid = _
      rw [assocFind_set_self, hfw1]
      rfl
    refine ⟨L3, ?_, ?_, ?_, ?_⟩
    · unfold approveWithdrawal
      simp only [hfw1]
      rw [hL3]
      simp [hwrec]
    · rw [hL3]
    · unfold approveWithdrawal
      simp [hfw3]
    · unfold rejectWithdrawal
      simp [hfw3]

/-- Witness for C7 on a single-user store: a 200-unit request at 10:00 debits
immediately and the rejection path restores the original balance of 1000. -/
theorem withdrawal_lifecycle_witness :
    ∃ l1,
      requestWithdrawal
          { users := [(0, exU)], plans := [], investments := [],
            withdrawals := [], config := some exCfg } 0 200 "mpesa John" 600 3
        = (WithdrawResult.success 3, l1)
      ∧ (assocFind l1.users 0).map User.balance = some (exU.balance - 200)
      ∧ (∃ l2, rejectWithdrawal l1 3 = (AdminWResult.success, l2)
          ∧ (assocFind l2.users 0).map User.balance = some exU.balance
          ∧ rejectWithdrawal l2 3 = (AdminWResult.notPending, l2)
          ∧ approveWithdrawal l2 3 = (AdminWResult.notPending, l2))
      ∧ (∃ l3, approveWithdrawal l1 3 = (AdminWResult.success, l3)
          ∧ l3.users = l1.users
          ∧ approveWithdrawal l3 3 = (AdminWResult.notPending, l3)
          ∧ rejectWithdrawal l3 3 = (AdminWResult.notPending, l3)) :=
  withdrawal_lifecycle _ 0 200 "mpesa John" 600 3 exU exCfg rfl (by norm_num)
    (by decide) rfl (by decide) (by norm_num [exCfg]) (by norm_num [exCfg])
    (by norm_num [exU]) rfl

end KKR
